import Mathlib

/-!
# Verification of the palm-health dashboard (`RPW_Dashboard.py`)

A shallow embedding of the data pipeline of `RPW_Dashboard.py`:
tabular record sets (pandas `DataFrame`s) become lists of cell rows with a
list of column names; a cell is a string, an exact rational (standing for
the numeric values of the source), or `nan` (pandas missing value / NaN).
The pipeline — directory scan, per-date CSV load, concatenation, health
classification, KPI counts, at-risk listing, time series, CSV export —
is translated function by function from the source script.
-/

/-- One cell of a tabular record set: a string value, a numeric value
(modelled as an exact rational), or a missing value (pandas NaN). -/
inductive Cell
  | s (v : String)
  | q (v : ℚ)
  | nan
deriving DecidableEq, Repr

/-- A tabular record set (pandas DataFrame): column names plus rows of cells,
each row aligned positionally with the column list. -/
structure DF where
  cols : List String
  rows : List (List Cell)
deriving DecidableEq, Repr

/-- Row alignment: every row has exactly one cell per column. -/
def DF.Aligned (df : DF) : Prop := ∀ r ∈ df.rows, r.length = df.cols.length

instance (df : DF) : Decidable df.Aligned := by
  unfold DF.Aligned; infer_instance

/-- Look up the cell of a row under a column name (`row[name]`), walking the
column list and the row in step; an absent column yields `nan`. -/
def colGet : List String → List Cell → String → Cell
  | [], _, _ => Cell.nan
  | c :: cs, row, t => if t = c then row.headD Cell.nan else colGet cs row.tail t

/-- Overwrite the cell of a row under a column name (`df[name] = v`,
restricted to one row); rows are padded with `nan` heads where needed. -/
def setCol : List String → List Cell → String → Cell → List Cell
  | [], row, _, _ => row
  | c :: cs, row, t, v =>
    if t = c then v :: row.tail
    else row.headD Cell.nan :: setCol cs row.tail t v

/-- Python's `x >= q` on a cell: true only for numeric cells at least `q`;
comparisons against NaN are false. -/
def cellGe (c : Cell) (q : ℚ) : Bool :=
  match c with
  | Cell.q v => decide (q ≤ v)
  | _ => false

/-- Python `str.lower()` (character-wise lowercasing). -/
def strLower (s : String) : String := String.mk (s.data.map Char.toLower)

/-- Python `str.strip()`: drop leading and trailing whitespace. -/
def strTrim (s : String) : String :=
  String.mk (((s.data.dropWhile Char.isWhitespace).reverse.dropWhile
    Char.isWhitespace).reverse)

/-- Pandas `.str.lower()` on one cell: lowercases strings, anything else
(numbers, NaN) becomes NaN. -/
def cellLower : Cell → Cell
  | Cell.s v => Cell.s (strLower v)
  | _ => Cell.nan

/-- The string carried by a cell, for grouping/sorting keys; non-string
cells map to the empty string. -/
def cellKey : Cell → String
  | Cell.s v => v
  | _ => ""

/-- `df.columns.str.lower().str.strip()` on one name. -/
def normName (s : String) : String := strTrim (strLower s)

/-- Lexicographic code-point comparison of character lists, the order Python's
`sorted` and pandas' `sort_values` use on strings. -/
def charListLe : List Char → List Char → Bool
  | [], _ => true
  | _ :: _, [] => false
  | a :: as, b :: bs =>
    if a.toNat < b.toNat then true
    else if b.toNat < a.toNat then false
    else charListLe as bs

/-- String order used by the script's sorts (code-point lexicographic). -/
def strLe (a b : String) : Prop := charListLe a.data b.data = true

instance : DecidableRel strLe := fun a b =>
  inferInstanceAs (Decidable (charListLe a.data b.data = true))

theorem charListLe_total : ∀ a b : List Char, charListLe a b ∨ charListLe b a
  | [], _ => Or.inl rfl
  | _ :: _, [] => Or.inr rfl
  | a :: as, b :: bs => by
    rcases Nat.lt_trichotomy a.toNat b.toNat with h | h | h
    · exact Or.inl (by simp [charListLe, h])
    · have := charListLe_total as bs
      rcases this with h' | h'
      · exact Or.inl (by simp [charListLe, h, h'])
      · exact Or.inr (by simp [charListLe, h, h'])
    · exact Or.inr (by simp [charListLe, h])

theorem charListLe_trans : ∀ a b c : List Char,
    charListLe a b → charListLe b c → charListLe a c
  | [], _, _, _, _ => rfl
  | _ :: _, [], _, h, _ => by simp [charListLe] at h
  | _ :: _, _ :: _, [], _, h => by simp [charListLe] at h
  | a :: as, b :: bs, c :: cs, hab, hbc => by
    simp only [charListLe] at hab hbc ⊢
    by_cases h1 : a.toNat < b.toNat
    · by_cases h2 : b.toNat < c.toNat
      · simp [show a.toNat < c.toNat from lt_trans h1 h2]
      · by_cases h2' : c.toNat < b.toNat
        · simp [h2, h2'] at hbc
        · simp [show a.toNat < c.toNat by omega]
    · by_cases h1' : b.toNat < a.toNat
      · simp [h1, h1'] at hab
      · by_cases h2 : b.toNat < c.toNat
        · simp [show a.toNat < c.toNat by omega]
        · by_cases h2' : c.toNat < b.toNat
          · simp [h2, h2'] at hbc
          · simp [h1, h1'] at hab
            simp [h2, h2'] at hbc
            simp [show ¬ a.toNat < c.toNat by omega, show ¬ c.toNat < a.toNat by omega]
            exact charListLe_trans as bs cs hab hbc

instance : IsTotal String strLe := ⟨fun a b => charListLe_total a.data b.data⟩

instance : IsTrans String strLe :=
  ⟨fun a b c => charListLe_trans a.data b.data c.data⟩

/-- NDVI threshold `0.6` of `classify_health` (as the exact rational 3/5). -/
def ndviHigh : ℚ := ⟨3, 5, by decide, by decide⟩

/-- NDVI threshold `0.3` of `classify_health` (as the exact rational 3/10). -/
def ndviLow : ℚ := ⟨3, 10, by decide, by decide⟩

/-- Normalize all column names. -/
def normCols (cs : List String) : List String := cs.map normName

/-- One date-partition directory: its `classified_index.csv` content when the
file exists, and the names of the image files present in it. -/
structure DateDir where
  csv : Option DF
  images : List String
deriving DecidableEq, Repr

/-- The root data directory: its entries in listing order; an entry is a name
together with the date directory when the entry is a subdirectory, or `none`
when it is a plain file. -/
structure RootDir where
  entries : List (String × Option DateDir)
deriving DecidableEq, Repr

/-- `get_all_dates`: the sorted names of the immediate subdirectories of the
root (non-directory entries excluded). -/
def get_all_dates (rd : RootDir) : List String :=
  List.insertionSort strLe
    (rd.entries.filterMap (fun e => if e.2.isSome then some e.1 else none))

/-- Resolve a date-partition name to its directory (first matching
subdirectory entry). -/
def findDir (rd : RootDir) (d : String) : Option DateDir :=
  rd.entries.findSome? (fun e => if e.1 = d then e.2 else none)

/-- The body of `load_data` once the CSV has been read: lowercase and trim
the column names, lowercase the `class` values when that column exists, and
tag every row with its source date in the `__date__` column. -/
def prepare (c : DF) (d : String) : DF :=
  let cols := normCols c.cols
  let rows :=
    if "class" ∈ cols then
      c.rows.map (fun r => setCol cols r "class" (cellLower (colGet cols r "class")))
    else c.rows
  if "__date__" ∈ cols then
    { cols := cols, rows := rows.map (fun r => setCol cols r "__date__" (Cell.s d)) }
  else
    { cols := cols ++ ["__date__"], rows := rows.map (fun r => r ++ [Cell.s d]) }

/-- `load_data`: `None` when the partition or its `classified_index.csv` is
absent, otherwise the prepared record set. -/
def load_data (rd : RootDir) (d : String) : Option DF :=
  (findDir rd d).bind (fun dd => dd.csv.map (fun c => prepare c d))

/-- The `all_data` accumulation loop: the prepared record sets of the dates
whose CSV exists, in date order. -/
def all_data (rd : RootDir) : List DF :=
  (get_all_dates rd).filterMap (load_data rd)

/-- The column union of `pd.concat`: columns in order of first appearance. -/
def concatCols (dfs : List DF) : List String :=
  dfs.foldl (fun acc df => acc ++ df.cols.filter (fun c => decide (c ∉ acc))) []

/-- Reindex one row of `df` to the unioned column list; columns absent from
`df` are filled with NaN. -/
def reindexRow (cs : List String) (df : DF) (r : List Cell) : List Cell :=
  cs.map (fun c => colGet df.cols r c)

/-- `pd.concat(all_data, ignore_index=True)`. -/
def pd_concat (dfs : List DF) : DF :=
  let cs := concatCols dfs
  { cols := cs, rows := (dfs.map (fun df => df.rows.map (reindexRow cs df))).flatten }

/-- The unioned record set `full_df` before the health-status step. -/
def rawFull (rd : RootDir) : DF := pd_concat (all_data rd)

/-- `classify_health(row)`: `Soil` for non-palm rows, otherwise thresholds on
the NDVI value (comparisons against NaN are false, so a palm row with missing
NDVI falls through to `Unhealthy`). -/
def classify_health (cols : List String) (row : List Cell) : String :=
  if colGet cols row "class" ≠ Cell.s "palm" then "Soil"
  else if cellGe (colGet cols row "ndvi") ndviHigh then "Healthy"
  else if cellGe (colGet cols row "ndvi") ndviLow then "Moderate"
  else "Unhealthy"

/-- `full_df['health_status'] = full_df.apply(classify_health, axis=1)` when
the column is absent: append the computed column. -/
def addHealth (df : DF) : DF :=
  { cols := df.cols ++ ["health_status"],
    rows := df.rows.map (fun r => r ++ [Cell.s (classify_health df.cols r)]) }

/-- The health-status step: keep a persisted `health_status` column, compute
it otherwise. -/
def withHealth (df : DF) : DF :=
  if "health_status" ∈ df.cols then df else addHealth df

/-- The four `st.error` + `st.stop` halting conditions of the script. -/
inductive Halt
  | rootMissing
  | noDates
  | noCsv
  | noNdvi
deriving DecidableEq, Repr

/-- The data-loading part of the script: from the (optional) root directory
to the date list and the unioned record set `full_df`, or the halting
condition that stops the session. -/
def buildFull : Option RootDir → Except Halt (List String × DF)
  | none => Except.error Halt.rootMissing
  | some rd =>
    let dates := get_all_dates rd
    if dates = [] then Except.error Halt.noDates
    else if all_data rd = [] then Except.error Halt.noCsv
    else
      let full := rawFull rd
      if "health_status" ∈ full.cols then Except.ok (dates, full)
      else if "ndvi" ∈ full.cols then Except.ok (dates, addHealth full)
      else Except.error Halt.noNdvi

/-- Replace the image lists of every date directory (used to state that the
loading pipeline never looks at image files). -/
def setImages (rd : RootDir) (f : String → List String) : RootDir :=
  { entries := rd.entries.map (fun e =>
      (e.1, e.2.map (fun dd => { dd with images := f e.1 }))) }

/-- `selected_df`: the rows of the selected date. -/
def selected_rows (df : DF) (d : String) : List (List Cell) :=
  df.rows.filter (fun r => decide (colGet df.cols r "__date__" = Cell.s d))

/-- `selected_palm_df`: the palm rows of the selected date. -/
def selected_palm_rows (df : DF) (d : String) : List (List Cell) :=
  (selected_rows df d).filter (fun r => decide (colGet df.cols r "class" = Cell.s "palm"))

/-- Count the rows of a given health status among a row list. -/
def status_count (cols : List String) (rows : List (List Cell)) (s : String) : Nat :=
  (rows.filter (fun r => decide (colGet cols r "health_status" = Cell.s s))).length

/-- KPI `h`: healthy palm count for the selected date. -/
def kpi_h (df : DF) (d : String) : Nat :=
  status_count df.cols (selected_palm_rows df d) "Healthy"

/-- KPI `m`: moderate palm count for the selected date. -/
def kpi_m (df : DF) (d : String) : Nat :=
  status_count df.cols (selected_palm_rows df d) "Moderate"

/-- KPI `u`: unhealthy palm count for the selected date. -/
def kpi_u (df : DF) (d : String) : Nat :=
  status_count df.cols (selected_palm_rows df d) "Unhealthy"

/-- KPI `t`: total palm count for the selected date. -/
def kpi_t (df : DF) (d : String) : Nat := (selected_palm_rows df d).length

/-- The `isin(['Moderate', 'Unhealthy'])` filter of the at-risk slice. -/
def riskyPred (cols : List String) (r : List Cell) : Bool :=
  decide (colGet cols r "health_status" = Cell.s "Moderate"
    ∨ colGet cols r "health_status" = Cell.s "Unhealthy")

/-- `risky_palms`: the at-risk palm rows of the selected date. -/
def risky_palms (df : DF) (d : String) : List (List Cell) :=
  (selected_palm_rows df d).filter (riskyPred df.cols)

/-- Projection of a row to the display columns
`(health_status, latitude, longitude)`. -/
def projTriple (df : DF) (r : List Cell) : Cell × Cell × Cell :=
  (colGet df.cols r "health_status", colGet df.cols r "latitude",
    colGet df.cols r "longitude")

/-- The `sort_values(by='health_status')` order on displayed triples. -/
def riskyLe (a b : Cell × Cell × Cell) : Prop := strLe (cellKey a.1) (cellKey b.1)

instance : DecidableRel riskyLe := fun a b =>
  inferInstanceAs (Decidable (strLe (cellKey a.1) (cellKey b.1)))

instance : IsTotal (Cell × Cell × Cell) riskyLe :=
  ⟨fun a b => charListLe_total (cellKey a.1).data (cellKey b.1).data⟩

instance : IsTrans (Cell × Cell × Cell) riskyLe :=
  ⟨fun _ _ _ hab hbc => charListLe_trans _ _ _ hab hbc⟩

/-- The displayed (and exported) at-risk listing: the at-risk rows projected
to the display columns and sorted by health status. -/
def risky_listing (df : DF) (d : String) : List (Cell × Cell × Cell) :=
  List.insertionSort riskyLe ((risky_palms df d).map (projTriple df))

/-- `palm_df`: the palm rows of all dates (used by the time series). -/
def palm_rows (df : DF) : List (List Cell) :=
  df.rows.filter (fun r => decide (colGet df.cols r "class" = Cell.s "palm"))

/-- The row labels of the time-series table: the sorted distinct dates that
occur among palm rows (`groupby` sorts its keys). -/
def ts_dates (df : DF) : List String :=
  List.insertionSort strLe
    (((palm_rows df).map (fun r => cellKey (colGet df.cols r "__date__"))).dedup)

/-- The column labels of the time-series table: the sorted distinct health
buckets that occur among palm rows. -/
def ts_buckets (df : DF) : List String :=
  List.insertionSort strLe
    (((palm_rows df).map (fun r => cellKey (colGet df.cols r "health_status"))).dedup)

/-- One entry of the time-series table: the number of palm rows of the given
date and health bucket (`unstack(fill_value=0)` makes absent combinations 0). -/
def ts_count (df : DF) (d b : String) : Nat :=
  ((palm_rows df).filter (fun r =>
    decide (cellKey (colGet df.cols r "__date__") = d
      ∧ cellKey (colGet df.cols r "health_status") = b))).length

/-! ## CSV serialization (`to_csv` / `read_csv` of the at-risk listing)

The CSV text is modelled at character level: fields are joined with `,`,
lines with `\n` (with the trailing newline `to_csv` emits); numeric cells
are printed in decimal (floats always have a finite decimal expansion, so
numeric cells are serialized through an exact decimal printer), NaN cells
as the empty field, string cells verbatim.  Parsing mirrors `read_csv`:
blank lines are skipped, the first line is the header, a field parses to a
number when it matches a decimal literal, to NaN when empty, and to a
string otherwise. -/

/-- Split a character list at every occurrence of `sep`. -/
def splitChar (sep : Char) : List Char → List (List Char)
  | [] => [[]]
  | c :: cs =>
    if c = sep then [] :: splitChar sep cs
    else
      match splitChar sep cs with
      | [] => [[c]]
      | p :: ps => (c :: p) :: ps

/-- Join pieces with a separator character. -/
def joinSep (sep : Char) : List (List Char) → List Char
  | [] => []
  | [p] => p
  | p :: q :: ps => p ++ sep :: joinSep sep (q :: ps)

/-- The decimal digit characters. -/
def digitChar : Nat → Char
  | 0 => '0' | 1 => '1' | 2 => '2' | 3 => '3' | 4 => '4'
  | 5 => '5' | 6 => '6' | 7 => '7' | 8 => '8' | 9 => '9'
  | _ => '*'

/-- Numeric value of a digit character. -/
def charVal (c : Char) : Nat := c.toNat - 48

/-- Decimal digits of a natural number, most significant first. -/
def natStrChars (n : Nat) : List Char :=
  if n = 0 then ['0'] else ((Nat.digits 10 n).reverse).map digitChar

/-- Value of a digit-character list, most significant first. -/
def parseVal (l : List Char) : Nat :=
  l.foldl (fun a c => 10 * a + charVal c) 0

/-- Digits of `r` left-padded with zeros to width `k`. -/
def padDigits (k r : Nat) : List Char :=
  List.replicate (k - (natStrChars r).length) '0' ++ natStrChars r

/-- The least exponent `k ≤ den` with `den ∣ 10 ^ k`, when one exists (it
does for every float-valued denominator, a power of two). -/
def findExp (den : Nat) : Option Nat :=
  (List.range (den + 1)).find? (fun k => decide (den ∣ 10 ^ k))

/-- Unsigned decimal expansion of `a / 10 ^ k`: the integer part and, for
`k > 0`, a dot and exactly `k` fractional digits. -/
def decBody (a k : Nat) : List Char :=
  if k = 0 then natStrChars a
  else natStrChars (a / 10 ^ k) ++ '.' :: padDigits k (a % 10 ^ k)

/-- Signed decimal expansion of `m / 10 ^ k`. -/
def signedDecChars (m : Int) (k : Nat) : List Char :=
  if m < 0 then '-' :: decBody m.natAbs k else decBody m.natAbs k

/-- Decimal character expansion of a rational whose denominator divides
`10 ^ k`: optional minus sign, integer part, and (for `k > 0`) a dot and
exactly `k` fractional digits. -/
def printDecChars (v : ℚ) (k : Nat) : List Char :=
  signedDecChars (v.num * (((10 ^ k) / v.den : Nat) : Int)) k

/-- Decimal serialization of a numeric cell. -/
def printDecQ (v : ℚ) : List Char :=
  match findExp v.den with
  | some k => printDecChars v k
  | none => ['N', 'A']

/-- Strip one leading minus sign. -/
def stripSign (l : List Char) : Bool × List Char :=
  match l with
  | [] => (false, [])
  | c :: rest => if c = '-' then (true, rest) else (false, l)

/-- Interpret the dot-split pieces of an unsigned decimal literal. -/
def parseAfterSign (neg : Bool) : List (List Char) → Option ℚ
  | [a] =>
    if a ≠ [] ∧ a.all Char.isDigit then
      some ((if neg then (-1 : ℚ) else 1) * (parseVal a : ℚ))
    else none
  | [a, b] =>
    if a ≠ [] ∧ b ≠ [] ∧ a.all Char.isDigit ∧ b.all Char.isDigit then
      some ((if neg then (-1 : ℚ) else 1) *
        ((parseVal a : ℚ) + (parseVal b : ℚ) / (10 : ℚ) ^ b.length))
    else none
  | _ => none

/-- Recognize a decimal literal (optional sign, digits, optional dot and
fractional digits) and return its rational value. -/
def parseDecChars (l : List Char) : Option ℚ :=
  parseAfterSign (stripSign l).1 (splitChar '.' (stripSign l).2)

/-- Serialize one cell to a CSV field. -/
def encField : Cell → List Char
  | Cell.s v => v.data
  | Cell.q v => printDecQ v
  | Cell.nan => []

/-- Parse one CSV field back to a cell, the way `read_csv` types values:
empty is NaN, a decimal literal is numeric, anything else is a string. -/
def decField (l : List Char) : Cell :=
  if l = [] then Cell.nan
  else
    match parseDecChars l with
    | some v => Cell.q v
    | none => Cell.s (String.mk l)

/-- One data line of the at-risk CSV export. -/
def csvLine (t : Cell × Cell × Cell) : List Char :=
  joinSep ',' [encField t.1, encField t.2.1, encField t.2.2]

/-- The header of the at-risk CSV export. -/
def headerChars : List Char := "health_status,latitude,longitude".data

/-- `risky_palms[display_cols].to_csv(index=False)`: header line, one line
per listed row, trailing newline. -/
def to_csv_at_risk (df : DF) (d : String) : String :=
  String.mk (joinSep '\n'
    ((headerChars :: (risky_listing df d).map csvLine) ++ [[]]))

/-- Re-parse the exported CSV: split into non-blank lines, drop the header,
split each line at commas and type the three fields. -/
def reparse_at_risk (s : String) : List (Cell × Cell × Cell) :=
  (((splitChar '\n' s.data).filter (fun l => decide (l ≠ []))).tail).filterMap
    (fun line =>
      match splitChar ',' line with
      | [a, b, c] => some (decField a, decField b, decField c)
      | _ => none)

/-- A cell a float-backed DataFrame can hold in a numeric column: missing,
or an exact rational with a finite decimal expansion. -/
def goodCell : Cell → Prop
  | Cell.q v => (findExp v.den).isSome = true
  | Cell.nan => True
  | Cell.s _ => False

instance : ∀ c, Decidable (goodCell c) := fun c => by
  cases c <;> simp [goodCell] <;> infer_instance

example : classify_health ["class", "ndvi"] [Cell.s "palm", Cell.q ⟨3, 4, by decide, by decide⟩]
    = "Healthy" := by decide

example : classify_health ["class", "ndvi"] [Cell.s "palm", Cell.nan]
    = "Unhealthy" := by decide

example : get_all_dates ⟨[("b", some ⟨none, []⟩), ("x", none), ("a", some ⟨none, []⟩)]⟩
    = ["a", "b"] := by decide

/-! ## Column-lookup lemmas -/

theorem colGet_notMem : ∀ (cols : List String) (row : List Cell) (t : String),
    t ∉ cols → colGet cols row t = Cell.nan
  | [], _, _, _ => rfl
  | c :: cs, row, t, h => by
    have h1 : t ≠ c := fun e => h (e ▸ List.mem_cons_self c cs)
    have h2 : t ∉ cs := fun e => h (List.mem_cons_of_mem c e)
    simp [colGet, h1, colGet_notMem cs row.tail t h2]

theorem colGet_map : ∀ (cs : List String) (f : String → Cell) (t : String),
    colGet cs (cs.map f) t = if t ∈ cs then f t else Cell.nan
  | [], _, _ => rfl
  | c :: cs, f, t => by
    by_cases h : t = c
    · subst h; simp [colGet]
    · simp [colGet, h, colGet_map cs f t]

theorem colGet_append : ∀ (cols : List String) (row : List Cell)
    (cols2 : List String) (row2 : List Cell) (t : String),
    row.length = cols.length →
    colGet (cols ++ cols2) (row ++ row2) t =
      if t ∈ cols then colGet cols row t else colGet cols2 row2 t
  | [], row, cols2, row2, t, h => by
    have : row = [] := List.eq_nil_of_length_eq_zero h
    subst this; simp
  | c :: cs, row, cols2, row2, t, h => by
    cases row with
    | nil => simp at h
    | cons r0 rs =>
      simp only [List.length_cons, Nat.succ.injEq] at h
      by_cases ht : t = c
      · subst ht; simp [colGet]
      · have := colGet_append cs rs cols2 row2 t h
        simp [colGet, ht, this]

theorem setCol_length : ∀ (cols : List String) (row : List Cell) (t : String)
    (v : Cell), row.length = cols.length → (setCol cols row t v).length = row.length
  | [], _, _, _, _ => rfl
  | c :: cs, row, t, v, h => by
    cases row with
    | nil => simp at h
    | cons r0 rs =>
      simp only [List.length_cons, Nat.succ.injEq] at h
      by_cases ht : t = c
      · simp [setCol, ht]
      · simp [setCol, ht, setCol_length cs rs t v h]

theorem colGet_setCol_self : ∀ (cols : List String) (row : List Cell)
    (t : String) (v : Cell),
    colGet cols (setCol cols row t v) t = if t ∈ cols then v else Cell.nan
  | [], row, t, v => by simp [setCol, colGet]
  | c :: cs, row, t, v => by
    by_cases ht : t = c
    · subst ht; simp [setCol, colGet]
    · simp [setCol, colGet, ht, colGet_setCol_self cs row.tail t v]

theorem colGet_setCol_other : ∀ (cols : List String) (row : List Cell)
    (t t' : String) (v : Cell), t' ≠ t →
    colGet cols (setCol cols row t v) t' = colGet cols row t'
  | [], _, _, _, _, _ => rfl
  | c :: cs, row, t, t', v, hne => by
    by_cases ht : t = c
    · have htc : t' ≠ c := fun e => hne (e.trans ht.symm)
      simp [setCol, colGet, ht, htc]
    · by_cases ht' : t' = c
      · subst ht'
        simp [setCol, colGet, ht]
      · simp [setCol, colGet, ht, ht', colGet_setCol_other cs row.tail t t' v hne]

/-! ## Structure of the prepared and concatenated record sets -/

/-- The per-row transformation `prepare` applies. -/
def prepRow (cols : List String) (d : String) (r : List Cell) : List Cell :=
  let r1 :=
    if "class" ∈ cols then setCol cols r "class" (cellLower (colGet cols r "class"))
    else r
  if "__date__" ∈ cols then setCol cols r1 "__date__" (Cell.s d)
  else r1 ++ [Cell.s d]

theorem prepare_cols (c : DF) (d : String) :
    (prepare c d).cols =
      if "__date__" ∈ normCols c.cols then normCols c.cols
      else normCols c.cols ++ ["__date__"] := by
  unfold prepare
  by_cases h : "__date__" ∈ normCols c.cols <;> simp [h]

theorem prepare_rows (c : DF) (d : String) :
    (prepare c d).rows = c.rows.map (prepRow (normCols c.cols) d) := by
  unfold prepare prepRow
  by_cases hd : "__date__" ∈ normCols c.cols <;>
    by_cases hc : "class" ∈ normCols c.cols <;>
      simp [hd, hc]

theorem date_mem_prepare_cols (c : DF) (d : String) :
    "__date__" ∈ (prepare c d).cols := by
  rw [prepare_cols]
  by_cases h : "__date__" ∈ normCols c.cols <;> simp [h]

theorem prepRow_length (cols : List String) (d : String) (r : List Cell)
    (h : r.length = cols.length) :
    (prepRow cols d r).length = (if "__date__" ∈ cols then cols.length else cols.length + 1) := by
  unfold prepRow
  by_cases hd : "__date__" ∈ cols <;> by_cases hc : "class" ∈ cols <;>
    simp [hd, hc, setCol_length, h, setCol_length cols r _ _ h]

theorem prepare_aligned (c : DF) (d : String) (h : c.Aligned) :
    (prepare c d).Aligned := by
  intro r hr
  rw [prepare_rows] at hr
  rcases List.mem_map.mp hr with ⟨r0, hr0, rfl⟩
  have hl : r0.length = (normCols c.cols).length := by
    rw [h r0 hr0]; simp [normCols]
  rw [prepare_cols, prepRow_length _ _ _ hl]
  by_cases hd : "__date__" ∈ normCols c.cols <;> simp [hd]

/-- Every prepared row is tagged with its source date. -/
theorem prepRow_tag (cols : List String) (d : String) (r : List Cell)
    (h : r.length = cols.length) :
    colGet (if "__date__" ∈ cols then cols else cols ++ ["__date__"])
      (prepRow cols d r) "__date__" = Cell.s d := by
  unfold prepRow
  by_cases hd : "__date__" ∈ cols
  · simp only [hd, if_true]
    rw [colGet_setCol_self]
    simp [hd]
  · simp only [hd, if_false]
    by_cases hc : "class" ∈ cols
    · simp only [hc, if_true]
      rw [colGet_append _ _ _ _ _ (by rw [setCol_length _ _ _ _ h]; exact h)]
      simp [hd, colGet]
    · simp only [hc, if_false]
      rw [colGet_append _ _ _ _ _ h]
      simp [hd, colGet]

theorem prepare_tag (c : DF) (d : String) (h : c.Aligned) :
    ∀ r ∈ (prepare c d).rows, colGet (prepare c d).cols r "__date__" = Cell.s d := by
  intro r hr
  rw [prepare_rows] at hr
  rcases List.mem_map.mp hr with ⟨r0, hr0, rfl⟩
  have hl : r0.length = (normCols c.cols).length := by
    rw [h r0 hr0]; simp [normCols]
  rw [prepare_cols]
  have := prepRow_tag (normCols c.cols) d r0 hl
  by_cases hd : "__date__" ∈ normCols c.cols <;> simp [hd] at this ⊢ <;> exact this

theorem concatCols_sub_aux :
    ∀ (dfs : List DF) (acc : List String),
      acc ⊆ dfs.foldl (fun a df => a ++ df.cols.filter (fun c => decide (c ∉ a))) acc
  | [], _ => fun _ h => h
  | df :: dfs, acc => by
    intro x hx
    exact concatCols_sub_aux dfs _ (List.mem_append_left _ hx)

theorem mem_concatCols_of_mem :
    ∀ (dfs : List DF) (acc : List String) (df : DF), df ∈ dfs → ∀ x ∈ df.cols,
      x ∈ dfs.foldl (fun a df => a ++ df.cols.filter (fun c => decide (c ∉ a))) acc
  | [], _, _, h => by simp at h
  | df0 :: dfs, acc, df, h => by
    intro x hx
    rcases List.mem_cons.mp h with rfl | h'
    · apply concatCols_sub_aux dfs
      by_cases hacc : x ∈ acc
      · exact List.mem_append_left _ hacc
      · exact List.mem_append_right _ (List.mem_filter.mpr ⟨hx, by simpa⟩)
    · exact mem_concatCols_of_mem dfs _ df h' x hx

theorem concatCols_subset (dfs : List DF) (df : DF) (h : df ∈ dfs) :
    df.cols ⊆ concatCols dfs :=
  fun _ hx => mem_concatCols_of_mem dfs [] df h _ hx

theorem pd_concat_aligned (dfs : List DF) : (pd_concat dfs).Aligned := by
  intro r hr
  simp only [pd_concat, List.mem_flatten, List.mem_map] at hr
  rcases hr with ⟨l, ⟨df, _, rfl⟩, hr⟩
  rcases List.mem_map.mp hr with ⟨r0, _, rfl⟩
  simp [reindexRow, pd_concat]

theorem colGet_reindex (cs : List String) (df : DF) (r : List Cell)
    (t : String) (h : t ∈ cs) :
    colGet cs (reindexRow cs df r) t = colGet df.cols r t := by
  unfold reindexRow
  rw [colGet_map]
  simp [h]

/-! ## Selected rows, health column, classifier facts -/

theorem mem_selected_palm (df : DF) (d : String) (r : List Cell) :
    r ∈ selected_palm_rows df d ↔
      r ∈ df.rows ∧ colGet df.cols r "__date__" = Cell.s d ∧
        colGet df.cols r "class" = Cell.s "palm" := by
  simp only [selected_palm_rows, selected_rows, List.mem_filter, decide_eq_true_eq,
    and_assoc]

theorem mem_addHealth_rows (df : DF) (r : List Cell) :
    r ∈ (addHealth df).rows ↔
      ∃ w ∈ df.rows, r = w ++ [Cell.s (classify_health df.cols w)] := by
  simp only [addHealth, List.mem_map]
  constructor
  · rintro ⟨w, hw, rfl⟩; exact ⟨w, hw, rfl⟩
  · rintro ⟨w, hw, rfl⟩; exact ⟨w, hw, rfl⟩

theorem colGet_addHealth_last (df : DF) (w : List Cell) (hw : w.length = df.cols.length)
    (hno : "health_status" ∉ df.cols) (x : Cell) :
    colGet (addHealth df).cols (w ++ [x]) "health_status" = x := by
  show colGet (df.cols ++ ["health_status"]) (w ++ [x]) "health_status" = x
  rw [colGet_append _ _ _ _ _ hw]
  simp [hno, colGet]

theorem colGet_addHealth_front (df : DF) (w : List Cell) (hw : w.length = df.cols.length)
    (x : Cell) (t : String) (ht : t ≠ "health_status") :
    colGet (df.cols ++ ["health_status"]) (w ++ [x]) t = colGet df.cols w t := by
  rw [colGet_append _ _ _ _ _ hw]
  by_cases h : t ∈ df.cols
  · simp [h]
  · simp [h, colGet, ht, colGet_notMem _ _ _ h]

theorem rawFull_aligned (rd : RootDir) : (rawFull rd).Aligned :=
  pd_concat_aligned _

theorem classify_health_palm (cols : List String) (row : List Cell)
    (h : colGet cols row "class" = Cell.s "palm") :
    classify_health cols row = "Healthy" ∨ classify_health cols row = "Moderate" ∨
      classify_health cols row = "Unhealthy" := by
  unfold classify_health
  rw [h]
  simp only [ne_eq, not_true_eq_false, if_false]
  split_ifs <;> simp

theorem classify_health_nan (cols : List String) (row : List Cell)
    (hc : colGet cols row "class" = Cell.s "palm")
    (hn : colGet cols row "ndvi" = Cell.nan) :
    classify_health cols row = "Unhealthy" := by
  unfold classify_health
  rw [hc, hn]
  simp [cellGe]

/-- Rows of `selected_palm_rows` of the recomputed record set carry one of
the three palm health labels. -/
theorem selected_palm_status_three (rd : RootDir) (d : String)
    (hno : "health_status" ∉ (rawFull rd).cols) :
    ∀ r ∈ selected_palm_rows (addHealth (rawFull rd)) d,
      colGet (addHealth (rawFull rd)).cols r "health_status" = Cell.s "Healthy" ∨
      colGet (addHealth (rawFull rd)).cols r "health_status" = Cell.s "Moderate" ∨
      colGet (addHealth (rawFull rd)).cols r "health_status" = Cell.s "Unhealthy" := by
  intro r hr
  rcases (mem_selected_palm _ _ _).mp hr with ⟨hmem, _, hclass⟩
  rcases (mem_addHealth_rows _ _).mp hmem with ⟨w, hw, rfl⟩
  have hal : w.length = (rawFull rd).cols.length := rawFull_aligned rd w hw
  have hcw : colGet (rawFull rd).cols w "class" = Cell.s "palm" := by
    rw [← colGet_addHealth_front (rawFull rd) w hal _ "class" (by decide)]
    exact hclass
  rw [colGet_addHealth_last _ _ hal hno]
  rcases classify_health_palm _ w hcw with h | h | h <;> simp [h]

/-- Counting rows by label: when every row carries one of three distinct
labels, the three counts partition the rows. -/
theorem three_status_count (cols : List String) (l : List (List Cell))
    (h : ∀ r ∈ l, colGet cols r "health_status" = Cell.s "Healthy" ∨
      colGet cols r "health_status" = Cell.s "Moderate" ∨
      colGet cols r "health_status" = Cell.s "Unhealthy") :
    status_count cols l "Healthy" + status_count cols l "Moderate" +
      status_count cols l "Unhealthy" = l.length := by
  induction l with
  | nil => rfl
  | cons r l ih =>
    have hr := h r (List.mem_cons_self r l)
    have hl := ih (fun r' h' => h r' (List.mem_cons_of_mem r h'))
    unfold status_count at hl ⊢
    rcases hr with h1 | h1 | h1 <;>
      simp only [List.filter_cons, h1] <;> simp <;> omega

/-! ## C1: the classification rule -/

/-- C1: for a record with string class `cls` and numeric NDVI `v`, the
derived label is `Soil` when `cls ≠ "palm"`, and otherwise `Healthy` when
`v ≥ 0.6`, `Moderate` when `0.3 ≤ v < 0.6`, `Unhealthy` when `v < 0.3`. -/
theorem c1_classifier (cols : List String) (row : List Cell) (cls : String) (v : ℚ)
    (hc : colGet cols row "class" = Cell.s cls)
    (hn : colGet cols row "ndvi" = Cell.q v) :
    (cls ≠ "palm" → classify_health cols row = "Soil") ∧
    (cls = "palm" → ndviHigh ≤ v → classify_health cols row = "Healthy") ∧
    (cls = "palm" → ndviLow ≤ v → v < ndviHigh → classify_health cols row = "Moderate") ∧
    (cls = "palm" → v < ndviLow → classify_health cols row = "Unhealthy") := by
  unfold classify_health
  rw [hc, hn]
  refine ⟨fun hcls => ?_, fun hcls h6 => ?_, fun hcls h3 h6 => ?_, fun hcls h3 => ?_⟩
  · simp [hcls]
  · subst hcls; simp [cellGe, h6]
  · subst hcls
    simp [cellGe, h3, not_le.mpr h6]
  · subst hcls
    have hlh : ndviLow < ndviHigh := by decide
    simp [cellGe, not_le.mpr h3, not_le.mpr (lt_trans h3 hlh)]

theorem c1_classifier_witness :
    (("palm" : String) ≠ "palm" →
      classify_health ["class", "ndvi"]
        [Cell.s "palm", Cell.q ⟨1, 2, by decide, by decide⟩] = "Soil") ∧
    (("palm" : String) = "palm" → ndviHigh ≤ ⟨1, 2, by decide, by decide⟩ →
      classify_health ["class", "ndvi"]
        [Cell.s "palm", Cell.q ⟨1, 2, by decide, by decide⟩] = "Healthy") ∧
    (("palm" : String) = "palm" → ndviLow ≤ ⟨1, 2, by decide, by decide⟩ →
      (⟨1, 2, by decide, by decide⟩ : ℚ) < ndviHigh →
      classify_health ["class", "ndvi"]
        [Cell.s "palm", Cell.q ⟨1, 2, by decide, by decide⟩] = "Moderate") ∧
    (("palm" : String) = "palm" → (⟨1, 2, by decide, by decide⟩ : ℚ) < ndviLow →
      classify_health ["class", "ndvi"]
        [Cell.s "palm", Cell.q ⟨1, 2, by decide, by decide⟩] = "Unhealthy") :=
  c1_classifier ["class", "ndvi"] [Cell.s "palm", Cell.q ⟨1, 2, by decide, by decide⟩]
    "palm" ⟨1, 2, by decide, by decide⟩ rfl rfl

/-! ## C3: the at-risk listing -/

/-- C3: for every record set and selected date, the at-risk listing is a
permutation of the palm records of that date whose health bucket is Moderate
or Unhealthy, projected to (health_status, latitude, longitude), and it is
sorted ascending by health status. -/
theorem c3_at_risk (df : DF) (d : String) :
    List.Perm (risky_listing df d)
      (((selected_palm_rows df d).filter (riskyPred df.cols)).map (projTriple df)) ∧
    List.Sorted riskyLe (risky_listing df d) :=
  ⟨List.perm_insertionSort riskyLe _, List.sorted_insertionSort riskyLe _⟩

/-- Every triple of the at-risk listing carries status Moderate or
Unhealthy. -/
theorem mem_risky_listing_status (df : DF) (d : String) (t : Cell × Cell × Cell)
    (ht : t ∈ risky_listing df d) :
    t.1 = Cell.s "Moderate" ∨ t.1 = Cell.s "Unhealthy" := by
  unfold risky_listing at ht
  have ht' := (List.perm_insertionSort riskyLe
    ((risky_palms df d).map (projTriple df))).mem_iff.mp ht
  rcases List.mem_map.mp ht' with ⟨r, hr, rfl⟩
  have hp := (List.mem_filter.mp hr).2
  simp only [riskyPred, decide_eq_true_eq] at hp
  simpa [projTriple] using hp

/-! ## C10: palm records with missing NDVI -/

/-- C10: the classifier returns Unhealthy for a palm record whose NDVI is
missing (both threshold comparisons are false on NaN), and in the pipeline
with recomputed statuses such a record is counted in the Unhealthy bucket
and appears in the at-risk listing rather than being rejected. -/
theorem c10_nan_unhealthy :
    (∀ (cols : List String) (row : List Cell),
      colGet cols row "class" = Cell.s "palm" →
      colGet cols row "ndvi" = Cell.nan →
      classify_health cols row = "Unhealthy") ∧
    (∀ (rd : RootDir) (d : String) (r : List Cell),
      "health_status" ∉ (rawFull rd).cols →
      r ∈ selected_palm_rows (addHealth (rawFull rd)) d →
      colGet (addHealth (rawFull rd)).cols r "ndvi" = Cell.nan →
      colGet (addHealth (rawFull rd)).cols r "health_status" = Cell.s "Unhealthy" ∧
      projTriple (addHealth (rawFull rd)) r ∈ risky_listing (addHealth (rawFull rd)) d) := by
  constructor
  · exact classify_health_nan
  · intro rd d r hno hr hnan
    rcases (mem_selected_palm _ _ _).mp hr with ⟨hmem, _, hclass⟩
    rcases (mem_addHealth_rows _ _).mp hmem with ⟨w, hw, rfl⟩
    have hal : w.length = (rawFull rd).cols.length := rawFull_aligned rd w hw
    have hcw : colGet (rawFull rd).cols w "class" = Cell.s "palm" := by
      rw [← colGet_addHealth_front (rawFull rd) w hal _ "class" (by decide)]
      exact hclass
    have hnw : colGet (rawFull rd).cols w "ndvi" = Cell.nan := by
      rw [← colGet_addHealth_front (rawFull rd) w hal _ "ndvi" (by decide)]
      exact hnan
    have hclas : classify_health (rawFull rd).cols w = "Unhealthy" :=
      classify_health_nan _ _ hcw hnw
    have hstat : colGet (addHealth (rawFull rd)).cols
        (w ++ [Cell.s (classify_health (rawFull rd).cols w)]) "health_status"
        = Cell.s "Unhealthy" := by
      rw [colGet_addHealth_last _ _ hal hno, hclas]
    refine ⟨hstat, ?_⟩
    unfold risky_listing
    rw [(List.perm_insertionSort riskyLe _).mem_iff]
    apply List.mem_map_of_mem
    apply List.mem_filter.mpr
    refine ⟨hr, ?_⟩
    simp only [riskyPred, decide_eq_true_eq]
    exact Or.inr hstat

/-! ## C2: KPI counts -/

/-- Input refuting C2 as stated: the CSV persists a `health_status` column
whose palm row is labelled `Soil`, so no bucket counts it. -/
def rdC2 : RootDir :=
  ⟨[("d1", some ⟨some ⟨["class", "health_status"],
    [[Cell.s "palm", Cell.s "Soil"]]⟩, []⟩)]⟩

/-- C2 counterexample: with a persisted `health_status` column the pipeline
keeps the input labels, and the sum of the Healthy, Moderate and Unhealthy
KPI counts (0) differs from the KPI total (1) for the selected date. -/
theorem c2_counterexample :
    buildFull (some rdC2) = Except.ok (["d1"], rawFull rdC2) ∧
    kpi_t (rawFull rdC2) "d1" = 1 ∧
    kpi_h (rawFull rdC2) "d1" + kpi_m (rawFull rdC2) "d1" +
      kpi_u (rawFull rdC2) "d1" = 0 :=
  ⟨rfl, by decide, by decide⟩

/-- C2 (amended): the KPI total equals the number of palm records of the
selected date; and when the input carries no `health_status` column (so the
labels are recomputed by the classifier), the Healthy, Moderate and
Unhealthy KPI counts sum to that total. -/
theorem c2_kpi_amended (rd : RootDir) (d : String)
    (hno : "health_status" ∉ (rawFull rd).cols) :
    kpi_t (addHealth (rawFull rd)) d
        = (selected_palm_rows (addHealth (rawFull rd)) d).length ∧
    kpi_h (addHealth (rawFull rd)) d + kpi_m (addHealth (rawFull rd)) d +
        kpi_u (addHealth (rawFull rd)) d = kpi_t (addHealth (rawFull rd)) d := by
  refine ⟨rfl, ?_⟩
  exact three_status_count _ _ (selected_palm_status_three rd d hno)

/-- Input for the C2 witness: one date, three palm rows with NDVI values
0.75, 0.45 and 0.1 (the worked example of the specification). -/
def rdC2W : RootDir :=
  ⟨[("d1", some ⟨some ⟨["class", "ndvi"],
    [[Cell.s "palm", Cell.q ⟨3, 4, by decide, by decide⟩],
     [Cell.s "palm", Cell.q ⟨9, 20, by decide, by decide⟩],
     [Cell.s "palm", Cell.q ⟨1, 10, by decide, by decide⟩]]⟩, []⟩)]⟩

theorem c2_kpi_amended_witness :
    kpi_t (addHealth (rawFull rdC2W)) "d1"
        = (selected_palm_rows (addHealth (rawFull rdC2W)) "d1").length ∧
    kpi_h (addHealth (rawFull rdC2W)) "d1" + kpi_m (addHealth (rawFull rdC2W)) "d1" +
        kpi_u (addHealth (rawFull rdC2W)) "d1" = kpi_t (addHealth (rawFull rdC2W)) "d1" :=
  c2_kpi_amended rdC2W "d1" (by decide)

/-! ## C7: the directory scanner -/

/-- C7: `get_all_dates` returns a sorted permutation of the immediate
subdirectory names of the root (non-directory entries excluded); the session
halts with a user-visible error when the root is missing or when it yields
no subdirectories. -/
theorem c7_scanner (rd : RootDir) :
    List.Perm (get_all_dates rd)
      (rd.entries.filterMap (fun e => if e.2.isSome then some e.1 else none)) ∧
    List.Sorted strLe (get_all_dates rd) ∧
    buildFull none = Except.error Halt.rootMissing ∧
    (get_all_dates rd = [] → buildFull (some rd) = Except.error Halt.noDates) := by
  refine ⟨List.perm_insertionSort strLe _, List.sorted_insertionSort strLe _, rfl, ?_⟩
  intro h
  simp [buildFull, h]

/-- Root directory with a single plain file and no subdirectories. -/
def rdC7W : RootDir := ⟨[("notes.txt", none)]⟩

theorem c7_scanner_witness :
    buildFull (some rdC7W) = Except.error Halt.noDates ∧
    buildFull none = Except.error Halt.rootMissing :=
  ⟨(c7_scanner rdC7W).2.2.2 (by decide), (c7_scanner rdC7W).2.2.1⟩

/-! ## C4: fatal and non-fatal conditions -/

theorem findDir_setImages_aux (f : String → List String) (d : String) :
    ∀ entries : List (String × Option DateDir),
      List.findSome? (fun e => if e.1 = d then e.2 else none)
        (entries.map (fun e => (e.1, e.2.map (fun dd => { dd with images := f e.1 }))))
      = (List.findSome? (fun e => if e.1 = d then e.2 else none) entries).map
          (fun dd => { dd with images := f d })
  | [] => rfl
  | (n, od) :: rest => by
    by_cases h : n = d
    · subst h
      cases od <;> simp [List.findSome?_cons, findDir_setImages_aux f n rest]
    · simp [List.findSome?_cons, h, findDir_setImages_aux f d rest]

theorem findDir_setImages (rd : RootDir) (f : String → List String) (d : String) :
    findDir (setImages rd f) d
      = (findDir rd d).map (fun dd => { dd with images := f d }) :=
  findDir_setImages_aux f d rd.entries

theorem load_data_setImages (rd : RootDir) (f : String → List String) (d : String) :
    load_data (setImages rd f) d = load_data rd d := by
  unfold load_data
  rw [findDir_setImages]
  cases findDir rd d with
  | none => rfl
  | some dd => cases dd.csv <;> rfl

theorem get_all_dates_setImages (rd : RootDir) (f : String → List String) :
    get_all_dates (setImages rd f) = get_all_dates rd := by
  unfold get_all_dates setImages
  congr 1
  rw [List.filterMap_map]
  apply List.filterMap_congr
  intro e _
  simp [Function.comp]

theorem all_data_setImages (rd : RootDir) (f : String → List String) :
    all_data (setImages rd f) = all_data rd := by
  unfold all_data
  rw [get_all_dates_setImages]
  apply List.filterMap_congr
  intro d _
  exact load_data_setImages rd f d

theorem rawFull_setImages (rd : RootDir) (f : String → List String) :
    rawFull (setImages rd f) = rawFull rd := by
  unfold rawFull
  rw [all_data_setImages]

/-- Input refuting C4 as stated: one date directory whose CSV is missing.
The claim says a missing per-date CSV is non-fatal, but when no date has a
CSV the script halts. -/
def rdC4 : RootDir := ⟨[("d1", some ⟨none, []⟩)]⟩

/-- C4 counterexample: with every per-date CSV missing, the session halts
with a user-visible error, so missing per-date CSVs are not always
non-fatal and the script has more than the two claimed fatal conditions. -/
theorem c4_counterexample :
    buildFull (some rdC4) = Except.error Halt.noCsv := rfl

/-- C4 (amended): four fatal conditions halt the session — missing root,
no subdirectory in the root, no CSV in any date directory, and a unioned
record set lacking both `ndvi` and `health_status`; otherwise the load
succeeds.  Image files never influence the outcome (their absence is
non-fatal), and one absent per-date CSV is non-fatal as long as some date
still yields data. -/
theorem c4_amended :
    buildFull none = Except.error Halt.rootMissing ∧
    (∀ rd : RootDir,
      (get_all_dates rd = [] → buildFull (some rd) = Except.error Halt.noDates) ∧
      (get_all_dates rd ≠ [] → all_data rd = [] →
        buildFull (some rd) = Except.error Halt.noCsv) ∧
      (get_all_dates rd ≠ [] → all_data rd ≠ [] →
        "health_status" ∉ (rawFull rd).cols → "ndvi" ∉ (rawFull rd).cols →
        buildFull (some rd) = Except.error Halt.noNdvi) ∧
      (get_all_dates rd ≠ [] → all_data rd ≠ [] →
        ("health_status" ∈ (rawFull rd).cols ∨ "ndvi" ∈ (rawFull rd).cols) →
        ∃ out, buildFull (some rd) = Except.ok out) ∧
      (∀ f, buildFull (some (setImages rd f)) = buildFull (some rd))) := by
  refine ⟨rfl, fun rd => ⟨?_, ?_, ?_, ?_, ?_⟩⟩
  · intro h; simp [buildFull, h]
  · intro h1 h2; simp [buildFull, h1, h2]
  · intro h1 h2 h3 h4; simp [buildFull, h1, h2, h3, h4]
  · intro h1 h2 h3
    rcases h3 with h3 | h3
    · exact ⟨(get_all_dates rd, rawFull rd), by simp [buildFull, h1, h2, h3]⟩
    · by_cases hh : "health_status" ∈ (rawFull rd).cols
      · exact ⟨(get_all_dates rd, rawFull rd), by simp [buildFull, h1, h2, hh]⟩
      · exact ⟨(get_all_dates rd, addHealth (rawFull rd)),
          by simp [buildFull, h1, h2, hh, h3]⟩
  · intro f
    simp only [buildFull, get_all_dates_setImages, all_data_setImages,
      rawFull_setImages]

/-- Input for the C4 witness: a date directory whose CSV has neither an
`ndvi` nor a `health_status` column. -/
def rdC4W : RootDir :=
  ⟨[("d1", some ⟨some ⟨["class"], [[Cell.s "palm"]]⟩, ["d1_health_grid.png"]⟩)]⟩

theorem c4_amended_witness :
    buildFull (some rdC4W) = Except.error Halt.noNdvi ∧
    buildFull (some (setImages rdC4W (fun _ => []))) = buildFull (some rdC4W) :=
  ⟨(c4_amended.2 rdC4W).2.2.1 (by decide) (by decide) (by decide) (by decide),
   (c4_amended.2 rdC4W).2.2.2.2 (fun _ => [])⟩

/-- Input for the C10 witness: one palm record with a missing NDVI value. -/
def rdC10W : RootDir :=
  ⟨[("d1", some ⟨some ⟨["class", "ndvi", "latitude", "longitude"],
    [[Cell.s "palm", Cell.nan, Cell.q 1, Cell.q 2]]⟩, []⟩)]⟩

/-- The pipeline row produced for the record of `rdC10W`. -/
def rowC10W : List Cell :=
  [Cell.s "palm", Cell.nan, Cell.q 1, Cell.q 2, Cell.s "d1", Cell.s "Unhealthy"]

theorem c10_nan_unhealthy_witness :
    classify_health ["class"] [Cell.s "palm"] = "Unhealthy" ∧
    (colGet (addHealth (rawFull rdC10W)).cols rowC10W "health_status"
        = Cell.s "Unhealthy" ∧
      projTriple (addHealth (rawFull rdC10W)) rowC10W
        ∈ risky_listing (addHealth (rawFull rdC10W)) "d1") :=
  ⟨c10_nan_unhealthy.1 ["class"] [Cell.s "palm"] rfl rfl,
   c10_nan_unhealthy.2 rdC10W "d1" rowC10W (by decide) (by decide) rfl⟩

/-! ## C5: the time-series table -/

/-- Input refuting C5 as stated: date `d2` is present in the input (and in
the unioned record set) but has no palm record, only a soil one. -/
def rdC5 : RootDir :=
  ⟨[("d1", some ⟨some ⟨["class", "ndvi"],
      [[Cell.s "palm", Cell.q ⟨7, 10, by decide, by decide⟩]]⟩, []⟩),
    ("d2", some ⟨some ⟨["class", "ndvi"],
      [[Cell.s "soil", Cell.q ⟨1, 2, by decide, by decide⟩]]⟩, []⟩)]⟩

/-- C5 counterexample: `d2` is a date present in the input whose records are
all non-palm; the time-series table has no row for it, so the table does not
have one row for every date present in the input. -/
theorem c5_counterexample :
    buildFull (some rdC5) = Except.ok (["d1", "d2"], addHealth (rawFull rdC5)) ∧
    "d2" ∈ get_all_dates rdC5 ∧
    (∃ r ∈ (addHealth (rawFull rdC5)).rows,
      colGet (addHealth (rawFull rdC5)).cols r "__date__" = Cell.s "d2") ∧
    "d2" ∉ ts_dates (addHealth (rawFull rdC5)) :=
  ⟨rfl, by decide, by decide, by decide⟩

/-- C5 (amended): the time-series table has one row for every date with at
least one palm record (a date all of whose records are non-palm, or whose
CSV is missing, gets no row) and one column for every health bucket observed
among palm records; rows and columns are sorted and duplicate-free, and
every (date, bucket) combination with no palm records holds the value zero
rather than being absent — the count entry is total on the grid. -/
theorem c5_time_series (df : DF) :
    (∀ d : String, d ∈ ts_dates df ↔
      ∃ r ∈ palm_rows df, cellKey (colGet df.cols r "__date__") = d) ∧
    (∀ b : String, b ∈ ts_buckets df ↔
      ∃ r ∈ palm_rows df, cellKey (colGet df.cols r "health_status") = b) ∧
    (ts_dates df).Nodup ∧ List.Sorted strLe (ts_dates df) ∧
    (ts_buckets df).Nodup ∧ List.Sorted strLe (ts_buckets df) ∧
    (∀ d b : String,
      (¬ ∃ r ∈ palm_rows df, cellKey (colGet df.cols r "__date__") = d ∧
        cellKey (colGet df.cols r "health_status") = b) → ts_count df d b = 0) := by
  refine ⟨?_, ?_, ?_, ?_, ?_, ?_, ?_⟩
  · intro d
    unfold ts_dates
    rw [(List.perm_insertionSort strLe _).mem_iff, List.mem_dedup, List.mem_map]
  · intro b
    unfold ts_buckets
    rw [(List.perm_insertionSort strLe _).mem_iff, List.mem_dedup, List.mem_map]
  · exact ((List.perm_insertionSort strLe _).nodup_iff).mpr (List.nodup_dedup _)
  · exact List.sorted_insertionSort strLe _
  · exact ((List.perm_insertionSort strLe _).nodup_iff).mpr (List.nodup_dedup _)
  · exact List.sorted_insertionSort strLe _
  · intro d b h
    unfold ts_count
    rw [← List.countP_eq_length_filter, List.countP_eq_zero]
    intro r hr
    simp only [decide_eq_true_eq]
    intro hc
    exact h ⟨r, hr, hc⟩

theorem c5_time_series_witness :
    ts_count (addHealth (rawFull rdC5)) "d2" "Healthy" = 0 :=
  (c5_time_series (addHealth (rawFull rdC5))).2.2.2.2.2.2 "d2" "Healthy" (by decide)

/-! ## C8: the per-date loader -/

theorem forall₂_map_self {α β : Type _} (R : α → β → Prop) (f : α → β) :
    ∀ l : List α, (∀ x ∈ l, R x (f x)) → List.Forall₂ R l (l.map f)
  | [], _ => List.Forall₂.nil
  | x :: l, h =>
    List.Forall₂.cons (h x (List.mem_cons_self x l))
      (forall₂_map_self R f l (fun y hy => h y (List.mem_cons_of_mem x hy)))

/-- The `class` cell of a prepared row is the lowercased `class` cell of the
source row. -/
theorem prepRow_class (cols : List String) (d : String) (r : List Cell)
    (hc : "class" ∈ cols) (hl : r.length = cols.length) :
    colGet (if "__date__" ∈ cols then cols else cols ++ ["__date__"])
      (prepRow cols d r) "class" = cellLower (colGet cols r "class") := by
  unfold prepRow
  have hlen : (setCol cols r "class" (cellLower (colGet cols r "class"))).length
      = cols.length := by rw [setCol_length _ _ _ _ hl]; exact hl
  by_cases hd : "__date__" ∈ cols
  · simp only [hd, if_true, hc]
    rw [colGet_setCol_other _ _ _ _ _ (by decide), colGet_setCol_self]
    simp [hc]
  · simp only [hd, if_false, hc, if_true]
    rw [colGet_append _ _ _ _ _ hlen]
    simp only [hc, if_true]
    rw [colGet_setCol_self]
    simp [hc]

/-- C8: when the fixed-name CSV of a date partition is absent the loader
yields no record set for that date (no error is raised — the result is
simply `None` and the date contributes nothing to `all_data`); when it is
present, the loader lowercases and trims the column names, tags every row
with its source date, and lowercases the `class` values if that column
exists. -/
theorem c8_loader (rd : RootDir) (d : String) (dd : DateDir)
    (hfind : findDir rd d = some dd) :
    (dd.csv = none → load_data rd d = none) ∧
    (∀ c : DF, dd.csv = some c →
      load_data rd d = some (prepare c d) ∧
      (prepare c d).cols = (if "__date__" ∈ normCols c.cols then normCols c.cols
        else normCols c.cols ++ ["__date__"]) ∧
      (c.Aligned → ∀ r ∈ (prepare c d).rows,
        colGet (prepare c d).cols r "__date__" = Cell.s d) ∧
      ("class" ∈ normCols c.cols → c.Aligned →
        List.Forall₂ (fun r0 r1 =>
          colGet (prepare c d).cols r1 "class"
            = cellLower (colGet (normCols c.cols) r0 "class"))
          c.rows (prepare c d).rows)) := by
  constructor
  · intro h
    simp [load_data, hfind, h]
  · intro c hc
    refine ⟨?_, prepare_cols c d, fun hal => prepare_tag c d hal, fun hcls hal => ?_⟩
    · simp [load_data, hfind, hc]
    · rw [prepare_rows]
      apply forall₂_map_self
      intro r0 hr0
      have hl : r0.length = (normCols c.cols).length := by
        rw [hal r0 hr0]; simp [normCols]
      have := prepRow_class (normCols c.cols) d r0 hcls hl
      rw [prepare_cols]
      by_cases hd : "__date__" ∈ normCols c.cols <;> simp [hd] at this ⊢ <;> exact this

/-- Inputs for the C8 witness: a partition with a CSV needing normalization,
and a partition with no CSV. -/
def csvC8A : DF := ⟨["Class ", "NDVI"], [[Cell.s "Palm", Cell.q 1]]⟩

def ddC8A : DateDir := ⟨some csvC8A, []⟩

def rdC8A : RootDir := ⟨[("d1", some ddC8A)]⟩

def rdC8B : RootDir := ⟨[("d1", some ⟨none, ["stray.png"]⟩)]⟩

theorem c8_loader_witness :
    load_data rdC8B "d1" = none ∧
    load_data rdC8A "d1" = some (prepare csvC8A "d1") ∧
    colGet (prepare csvC8A "d1").cols [Cell.s "palm", Cell.q 1, Cell.s "d1"]
      "__date__" = Cell.s "d1" :=
  ⟨(c8_loader rdC8B "d1" ⟨none, ["stray.png"]⟩ rfl).1 rfl,
   ((c8_loader rdC8A "d1" ddC8A rfl).2 csvC8A rfl).1,
   ((c8_loader rdC8A "d1" ddC8A rfl).2 csvC8A rfl).2.2.1 (by decide)
     [Cell.s "palm", Cell.q 1, Cell.s "d1"] (by decide)⟩

/-! ## C6: the date-partition invariant -/

/-- The rows the selected date draws from partition `d` before the health
step: the prepared rows of that date's CSV, reindexed to the unioned
columns. -/
def blockRaw (rd : RootDir) (d : String) : List (List Cell) :=
  match load_data rd d with
  | some df => df.rows.map (reindexRow (concatCols (all_data rd)) df)
  | none => []

/-- The rows the selected date draws from partition `d` in the final record
set (with the health column appended when it was recomputed). -/
def blockFull (rd : RootDir) (d : String) : List (List Cell) :=
  if "health_status" ∈ (rawFull rd).cols then blockRaw rd d
  else (blockRaw rd d).map
    (fun r => r ++ [Cell.s (classify_health (rawFull rd).cols r)])

/-- Well-formed input: every per-date CSV is rectangular. -/
def RootDir.CsvAligned (rd : RootDir) : Prop :=
  ∀ e ∈ rd.entries, ∀ dd : DateDir, e.2 = some dd →
    ∀ c : DF, dd.csv = some c → c.Aligned

instance (rd : RootDir) : Decidable rd.CsvAligned := by
  unfold RootDir.CsvAligned; infer_instance

theorem flatten_filterMap_map {α β X : Type _} (g : α → Option β) (F : β → List X) :
    ∀ l : List α,
      ((l.filterMap g).map F).flatten
        = (l.map (fun d => match g d with | some df => F df | none => [])).flatten
  | [] => rfl
  | a :: l => by
    cases hg : g a <;>
      simp [List.filterMap_cons, hg, flatten_filterMap_map g F l]

theorem rawFull_rows_flatten (rd : RootDir) :
    (rawFull rd).rows = ((get_all_dates rd).map (blockRaw rd)).flatten := by
  have h := flatten_filterMap_map (load_data rd)
    (fun df => df.rows.map (reindexRow (concatCols (all_data rd)) df))
    (get_all_dates rd)
  refine Eq.trans ?_ (h.trans ?_)
  · rfl
  · apply congrArg List.flatten
    apply List.map_congr_left
    intro d _
    unfold blockRaw
    cases load_data rd d <;> rfl

theorem findDir_mem (rd : RootDir) (d : String) (dd : DateDir)
    (h : findDir rd d = some dd) :
    ∃ e ∈ rd.entries, e.1 = d ∧ e.2 = some dd := by
  rcases List.exists_of_findSome?_eq_some h with ⟨e, he, hfe⟩
  by_cases hed : e.1 = d
  · exact ⟨e, he, hed, by simpa [hed] using hfe⟩
  · simp [hed] at hfe

theorem load_data_eq_some (rd : RootDir) (d : String) (df : DF)
    (h : load_data rd d = some df) :
    ∃ dd : DateDir, findDir rd d = some dd ∧
      ∃ c : DF, dd.csv = some c ∧ df = prepare c d := by
  unfold load_data at h
  cases hf : findDir rd d with
  | none => rw [hf] at h; simp at h
  | some dd =>
    rw [hf, Option.some_bind] at h
    cases hc : dd.csv with
    | none => rw [hc] at h; simp at h
    | some c =>
      rw [hc] at h
      simp only [Option.map_some'] at h
      exact ⟨dd, rfl, c, hc, (Option.some.inj h).symm⟩

theorem prepare_of_load_aligned (rd : RootDir) (hca : rd.CsvAligned) (d : String)
    (df : DF) (h : load_data rd d = some df) :
    df.Aligned ∧ "__date__" ∈ df.cols ∧
      ∀ r ∈ df.rows, colGet df.cols r "__date__" = Cell.s d := by
  rcases load_data_eq_some rd d df h with ⟨dd, hfd, c, hcsv, rfl⟩
  rcases findDir_mem rd d dd hfd with ⟨e, he, hed, hesome⟩
  have hcal : c.Aligned := hca e he dd hesome c hcsv
  exact ⟨prepare_aligned c d hcal, date_mem_prepare_cols c d, prepare_tag c d hcal⟩

theorem mem_all_data (rd : RootDir) (d : String) (df : DF)
    (hd : d ∈ get_all_dates rd) (h : load_data rd d = some df) :
    df ∈ all_data rd :=
  List.mem_filterMap.mpr ⟨d, hd, h⟩

/-- Every row of partition `d`'s block is tagged with `d`. -/
theorem blockRaw_tag (rd : RootDir) (hca : rd.CsvAligned) (d : String)
    (hd : d ∈ get_all_dates rd) :
    ∀ r ∈ blockRaw rd d,
      colGet (concatCols (all_data rd)) r "__date__" = Cell.s d := by
  intro r hr
  unfold blockRaw at hr
  cases hld : load_data rd d with
  | none => rw [hld] at hr; simp at hr
  | some df =>
    rw [hld] at hr
    rcases List.mem_map.mp hr with ⟨r0, hr0, rfl⟩
    rcases prepare_of_load_aligned rd hca d df hld with ⟨_, hdate, htag⟩
    have hsub : df.cols ⊆ concatCols (all_data rd) :=
      concatCols_subset _ _ (mem_all_data rd d df hd hld)
    rw [colGet_reindex _ _ _ _ (hsub hdate)]
    exact htag r0 hr0

theorem findDir_none_of_not_mem (rd : RootDir) (d : String)
    (h : d ∉ get_all_dates rd) : findDir rd d = none := by
  cases hf : findDir rd d with
  | none => rfl
  | some dd =>
    exfalso
    rcases findDir_mem rd d dd hf with ⟨e, he, hed, hesome⟩
    apply h
    unfold get_all_dates
    rw [(List.perm_insertionSort strLe _).mem_iff]
    exact List.mem_filterMap.mpr ⟨e, he, by simp [hed, hesome]⟩

theorem blockRaw_not_mem (rd : RootDir) (d : String) (h : d ∉ get_all_dates rd) :
    blockRaw rd d = [] := by
  unfold blockRaw load_data
  rw [findDir_none_of_not_mem rd d h]
  rfl

theorem flatten_map_single {X : Type _} (d : String) (C : String → List X) :
    ∀ l : List String, l.Nodup → (∀ d' ∈ l, d' ≠ d → C d' = []) →
      (l.map C).flatten = if d ∈ l then C d else []
  | [], _, _ => by simp
  | a :: l, hnd, hC => by
    have hnd' := (List.nodup_cons.mp hnd).2
    have hal := (List.nodup_cons.mp hnd).1
    by_cases had : a = d
    · subst had
      have : ∀ d' ∈ l, C d' = [] := fun d' hd' =>
        hC d' (List.mem_cons_of_mem a hd') (fun e => hal (e ▸ hd'))
      have hfl : (l.map C).flatten = [] := by
        rw [List.flatten_eq_nil_iff]
        intro x hx
        rcases List.mem_map.mp hx with ⟨d', hd', rfl⟩
        exact this d' hd'
      simp [hfl]
    · have hCa : C a = [] := hC a (List.mem_cons_self a l) had
      have := flatten_map_single d C l hnd'
        (fun d' hd' => hC d' (List.mem_cons_of_mem a hd'))
      simp only [List.map_cons, List.flatten_cons, hCa, List.nil_append, this]
      by_cases hdl : d ∈ l
      · simp [hdl, List.mem_cons_of_mem a hdl]
      · have hdal : d ∉ a :: l := by
          intro hm
          rcases List.mem_cons.mp hm with he | hm'
          · exact had he.symm
          · exact hdl hm'
        simp [hdl, hdal]

/-- Selecting a date from the pre-health unioned record set yields exactly
that partition's reindexed rows. -/
theorem selected_rawFull_eq_block (rd : RootDir) (hca : rd.CsvAligned)
    (hnd : (get_all_dates rd).Nodup) (d : String) :
    selected_rows (rawFull rd) d = blockRaw rd d := by
  unfold selected_rows
  have hcols : (rawFull rd).cols = concatCols (all_data rd) := rfl
  rw [rawFull_rows_flatten, List.filter_flatten, List.map_map]
  have hmap : ∀ d' ∈ get_all_dates rd,
      ((fun l => List.filter (fun r =>
          decide (colGet (rawFull rd).cols r "__date__" = Cell.s d)) l) ∘ blockRaw rd) d'
        = if d' = d then blockRaw rd d else [] := by
    intro d' hd'
    by_cases hdd : d' = d
    · subst hdd
      simp only [if_true, Function.comp]
      apply List.filter_eq_self.mpr
      intro r hr
      rw [hcols, decide_eq_true_eq]
      exact blockRaw_tag rd hca d' hd' r hr
    · simp only [hdd, if_false, Function.comp]
      apply List.filter_eq_nil_iff.mpr
      intro r hr
      rw [hcols]
      simp only [decide_eq_true_eq]
      intro he
      have := blockRaw_tag rd hca d' hd' r hr
      rw [this] at he
      exact hdd (by injection he)
    -- the whole comp-ite rewrite is consumed below
  calc ((get_all_dates rd).map ((fun l => List.filter (fun r =>
        decide (colGet (rawFull rd).cols r "__date__" = Cell.s d)) l) ∘ blockRaw rd)).flatten
      = ((get_all_dates rd).map (fun d' =>
          if d' = d then blockRaw rd d else [])).flatten := by
        rw [List.map_congr_left hmap]
    _ = blockRaw rd d := by
        rw [flatten_map_single d _ (get_all_dates rd) hnd
          (fun d' _ h => by simp [h])]
        by_cases hdm : d ∈ get_all_dates rd
        · simp [hdm]
        · simp [hdm, blockRaw_not_mem rd d hdm]

theorem colGet_addHealth_front2 (df : DF) (w : List Cell)
    (hw : w.length = df.cols.length) (x : Cell) (t : String)
    (ht : t ≠ "health_status") :
    colGet (addHealth df).cols (w ++ [x]) t = colGet df.cols w t :=
  colGet_addHealth_front df w hw x t ht

/-- Selecting a date from the final record set yields exactly that
partition's rows. -/
theorem selected_withHealth_eq_blockFull (rd : RootDir) (hca : rd.CsvAligned)
    (hnd : (get_all_dates rd).Nodup) (d : String) :
    selected_rows (withHealth (rawFull rd)) d = blockFull rd d := by
  by_cases hh : "health_status" ∈ (rawFull rd).cols
  · unfold withHealth blockFull
    rw [if_pos hh, if_pos hh]
    exact selected_rawFull_eq_block rd hca hnd d
  · unfold withHealth blockFull
    rw [if_neg hh, if_neg hh]
    show (addHealth (rawFull rd)).rows.filter _ = _
    have hrows : (addHealth (rawFull rd)).rows
        = (rawFull rd).rows.map
          (fun w => w ++ [Cell.s (classify_health (rawFull rd).cols w)]) := rfl
    rw [hrows, List.filter_map]
    have hfil : (rawFull rd).rows.filter
        ((fun r => decide (colGet (addHealth (rawFull rd)).cols r "__date__"
            = Cell.s d)) ∘
          (fun w => w ++ [Cell.s (classify_health (rawFull rd).cols w)]))
        = selected_rows (rawFull rd) d := by
      apply List.filter_congr
      intro w hw
      simp only [Function.comp]
      rw [colGet_addHealth_front2 (rawFull rd) w (rawFull_aligned rd w hw) _ "__date__"
        (by decide)]
    rw [hfil, selected_rawFull_eq_block rd hca hnd d]

/-- C6 (amended): every loaded record is tagged with the date directory it
was read from, and selecting a date yields exactly that partition's rows;
the classifier is a pure function of the class and ndvi cells, and the
health label is recomputed by the classifier whenever the column is absent
from the input — but a persisted `health_status` column is used as-is, so
health_status is not in general a function of class and ndvi. -/
theorem c6_partition (rd : RootDir) (hca : rd.CsvAligned)
    (hnd : (get_all_dates rd).Nodup) (d : String) :
    (∀ e ∈ rd.entries, ∀ dd : DateDir, e.2 = some dd → ∀ c : DF, dd.csv = some c →
      ∀ r ∈ (prepare c e.1).rows,
        colGet (prepare c e.1).cols r "__date__" = Cell.s e.1) ∧
    selected_rows (withHealth (rawFull rd)) d = blockFull rd d ∧
    (∀ (cols : List String) (row : List Cell) (cols' : List String) (row' : List Cell),
      colGet cols row "class" = colGet cols' row' "class" →
      colGet cols row "ndvi" = colGet cols' row' "ndvi" →
      classify_health cols row = classify_health cols' row') ∧
    ("health_status" ∉ (rawFull rd).cols →
      ∀ w ∈ (rawFull rd).rows,
        colGet (withHealth (rawFull rd)).cols
          (w ++ [Cell.s (classify_health (rawFull rd).cols w)]) "health_status"
          = Cell.s (classify_health (rawFull rd).cols w)) := by
  refine ⟨?_, selected_withHealth_eq_blockFull rd hca hnd d, ?_, ?_⟩
  · intro e he dd hdd c hc
    exact prepare_tag c e.1 (hca e he dd hdd c hc)
  · intro cols row cols' row' h1 h2
    unfold classify_health
    rw [h1, h2]
  · intro hno w hw
    have hcols : (withHealth (rawFull rd)).cols = (addHealth (rawFull rd)).cols := by
      unfold withHealth
      rw [if_neg hno]
    rw [hcols]
    exact colGet_addHealth_last _ w (rawFull_aligned rd w hw) hno _

/-- Input refuting the purity half of C6: a persisted `health_status` column
gives two records with identical class and ndvi different labels. -/
def rdC6 : RootDir :=
  ⟨[("d1", some ⟨some ⟨["class", "ndvi", "health_status"],
    [[Cell.s "palm", Cell.q ⟨1, 2, by decide, by decide⟩, Cell.s "Healthy"],
     [Cell.s "palm", Cell.q ⟨1, 2, by decide, by decide⟩, Cell.s "Unhealthy"]]⟩,
    []⟩)]⟩

/-- C6 counterexample: in the final record set of `rdC6`, two records agree
on class and ndvi yet carry different health labels, so `health_status` is
not a pure function of the class and ndvi fields (the persisted column is
kept, not recomputed). -/
theorem c6_counterexample :
    buildFull (some rdC6) = Except.ok (["d1"], rawFull rdC6) ∧
    ¬ (∀ r ∈ (rawFull rdC6).rows, ∀ r' ∈ (rawFull rdC6).rows,
      colGet (rawFull rdC6).cols r "class" = colGet (rawFull rdC6).cols r' "class" →
      colGet (rawFull rdC6).cols r "ndvi" = colGet (rawFull rdC6).cols r' "ndvi" →
      colGet (rawFull rdC6).cols r "health_status"
        = colGet (rawFull rdC6).cols r' "health_status") :=
  ⟨rfl, by decide⟩

/-- Input for the C6 witness: two well-formed date partitions. -/
def rdC6W : RootDir :=
  ⟨[("d2", some ⟨some ⟨["class", "ndvi"],
      [[Cell.s "soil", Cell.q ⟨1, 4, by decide, by decide⟩]]⟩, []⟩),
    ("d1", some ⟨some ⟨["class", "ndvi"],
      [[Cell.s "palm", Cell.q ⟨7, 10, by decide, by decide⟩]]⟩, []⟩)]⟩

theorem c6_partition_witness :
    selected_rows (withHealth (rawFull rdC6W)) "d1" = blockFull rdC6W "d1" :=
  (c6_partition rdC6W (by decide) (by decide) "d1").2.1

/-! ## C9: decimal printing and parsing -/

theorem digitChar_val {d : Nat} (h : d < 10) : charVal (digitChar d) = d := by
  interval_cases d <;> decide

theorem digitChar_isDigit {d : Nat} (h : d < 10) : (digitChar d).isDigit = true := by
  interval_cases d <;> decide

theorem natStrChars_all_digits (n : Nat) : ∀ c ∈ natStrChars n, c.isDigit = true := by
  intro c hc
  unfold natStrChars at hc
  by_cases h : n = 0
  · simp [h] at hc
    subst hc; decide
  · rw [if_neg h] at hc
    rcases List.mem_map.mp hc with ⟨d, hd, rfl⟩
    exact digitChar_isDigit
      (Nat.digits_lt_base (by norm_num) (List.mem_reverse.mp hd))

theorem natStrChars_ne_nil (n : Nat) : natStrChars n ≠ [] := by
  unfold natStrChars
  by_cases h : n = 0
  · simp [h]
  · rw [if_neg h]
    simp [Nat.digits_ne_nil_iff_ne_zero.mpr h]

theorem parseVal_append_singleton (l : List Char) (c : Char) :
    parseVal (l ++ [c]) = 10 * parseVal l + charVal c := by
  unfold parseVal
  rw [List.foldl_append]
  rfl

theorem parseVal_digits (n : Nat) :
    parseVal ((Nat.digits 10 n).reverse.map digitChar) = n := by
  induction n using Nat.strong_induction_on with
  | _ n ih =>
    by_cases h : n = 0
    · subst h; simp [Nat.digits_zero, parseVal]
    · rw [Nat.digits_def' (show 1 < 10 by norm_num) (Nat.pos_of_ne_zero h)]
      rw [List.reverse_cons, List.map_append]
      show parseVal (_ ++ [digitChar (n % 10)]) = n
      rw [parseVal_append_singleton,
        ih (n / 10) (Nat.div_lt_self (Nat.pos_of_ne_zero h) (by norm_num)),
        digitChar_val (Nat.mod_lt n (by norm_num))]
      omega

theorem parseVal_natStrChars (n : Nat) : parseVal (natStrChars n) = n := by
  unfold natStrChars
  by_cases h : n = 0
  · simp [h]; decide
  · rw [if_neg h]
    exact parseVal_digits n

theorem parseVal_replicate_zero (j : Nat) (l : List Char) :
    parseVal (List.replicate j '0' ++ l) = parseVal l := by
  induction j with
  | zero => rfl
  | succ j ih =>
    rw [List.replicate_succ, List.cons_append]
    show parseVal ('0' :: (List.replicate j '0' ++ l)) = parseVal l
    unfold parseVal at ih ⊢
    rw [List.foldl_cons]
    simpa using ih

theorem natStrChars_length_le (r k : Nat) (h : r < 10 ^ k) (hk : 0 < k) :
    (natStrChars r).length ≤ k := by
  unfold natStrChars
  by_cases h0 : r = 0
  · simp [h0]; omega
  · rw [if_neg h0]
    rw [List.length_map, List.length_reverse]
    have h1 := Nat.base_pow_length_digits_le 10 r (by norm_num) h0
    have h2 : 10 ^ (Nat.digits 10 r).length < 10 ^ (k + 1) := by
      calc 10 ^ (Nat.digits 10 r).length ≤ 10 * r := h1
        _ < 10 * 10 ^ k := by omega
        _ = 10 ^ (k + 1) := by ring
    have := (Nat.pow_lt_pow_iff_right (show 1 < 10 by norm_num)).mp h2
    omega

theorem padDigits_length (k r : Nat) (h : r < 10 ^ k) (hk : 0 < k) :
    (padDigits k r).length = k := by
  unfold padDigits
  rw [List.length_append, List.length_replicate]
  have := natStrChars_length_le r k h hk
  omega

theorem padDigits_parseVal (k r : Nat) : parseVal (padDigits k r) = r := by
  unfold padDigits
  rw [parseVal_replicate_zero, parseVal_natStrChars]

theorem padDigits_all_digits (k r : Nat) :
    ∀ c ∈ padDigits k r, c.isDigit = true := by
  intro c hc
  unfold padDigits at hc
  rcases List.mem_append.mp hc with h | h
  · rw [List.eq_of_mem_replicate h]; decide
  · exact natStrChars_all_digits r c h

theorem padDigits_ne_nil (k r : Nat) : padDigits k r ≠ [] := by
  unfold padDigits
  intro h
  rcases List.append_eq_nil.mp h with ⟨_, h2⟩
  exact natStrChars_ne_nil r h2

theorem isDigit_ne_dot {c : Char} (h : c.isDigit = true) : c ≠ '.' := by
  intro e; subst e; simp at h

theorem isDigit_ne_minus {c : Char} (h : c.isDigit = true) : c ≠ '-' := by
  intro e; subst e; simp at h

theorem isDigit_ne_comma {c : Char} (h : c.isDigit = true) : c ≠ ',' := by
  intro e; subst e; simp at h

theorem isDigit_ne_newline {c : Char} (h : c.isDigit = true) : c ≠ '\n' := by
  intro e; subst e; simp at h

theorem stripSign_digits (l : List Char) (h : ∀ c ∈ l, c.isDigit = true) :
    stripSign l = (false, l) := by
  cases l with
  | nil => rfl
  | cons c rest =>
    simp [stripSign, isDigit_ne_minus (h c (List.mem_cons_self c rest))]

theorem stripSign_minus (l : List Char) : stripSign ('-' :: l) = (true, l) := by
  simp [stripSign]

theorem stripSign_head_digit (c : Char) (l : List Char) (h : c.isDigit = true) :
    stripSign (c :: l) = (false, c :: l) := by
  simp [stripSign, isDigit_ne_minus h]

theorem splitChar_cons (sep c : Char) (cs : List Char) :
    splitChar sep (c :: cs) =
      if c = sep then [] :: splitChar sep cs
      else match splitChar sep cs with
        | [] => [[c]]
        | p :: ps => (c :: p) :: ps := rfl

theorem splitChar_not_mem (sep : Char) :
    ∀ l : List Char, sep ∉ l → splitChar sep l = [l]
  | [], _ => rfl
  | c :: cs, h => by
    have hc : c ≠ sep := fun e => h (e ▸ List.mem_cons_self c cs)
    have hcs : sep ∉ cs := fun e => h (List.mem_cons_of_mem c e)
    rw [splitChar_cons, if_neg hc, splitChar_not_mem sep cs hcs]

theorem splitChar_append (sep : Char) :
    ∀ (x t : List Char), sep ∉ x →
      splitChar sep (x ++ sep :: t) = x :: splitChar sep t
  | [], t, _ => by
    rw [List.nil_append, splitChar_cons, if_pos rfl]
  | c :: x, t, h => by
    have hc : c ≠ sep := fun e => h (e ▸ List.mem_cons_self c x)
    have hx : sep ∉ x := fun e => h (List.mem_cons_of_mem c e)
    rw [List.cons_append, splitChar_cons, if_neg hc, splitChar_append sep x t hx]

theorem splitChar_joinSep (sep : Char) :
    ∀ ps : List (List Char), ps ≠ [] → (∀ p ∈ ps, sep ∉ p) →
      splitChar sep (joinSep sep ps) = ps
  | [], h, _ => absurd rfl h
  | [p], _, hp => by
    show splitChar sep p = [p]
    exact splitChar_not_mem sep p (hp p (List.mem_cons_self p []))
  | p :: q :: ps, _, hp => by
    show splitChar sep (p ++ sep :: joinSep sep (q :: ps)) = p :: (q :: ps)
    rw [splitChar_append sep p _ (hp p (List.mem_cons_self p (q :: ps)))]
    rw [splitChar_joinSep sep (q :: ps) (by simp)
      (fun x hx => hp x (List.mem_cons_of_mem p hx))]

theorem parseAfterSign_single (neg : Bool) (a : List Char)
    (hne : a ≠ []) (hd : a.all Char.isDigit = true) :
    parseAfterSign neg [a]
      = some ((if neg then (-1 : ℚ) else 1) * (parseVal a : ℚ)) := by
  show (if a ≠ [] ∧ a.all Char.isDigit = true then
      some ((if neg then (-1 : ℚ) else 1) * (parseVal a : ℚ)) else none) = _
  rw [if_pos (And.intro hne hd)]

theorem parseAfterSign_pair (neg : Bool) (a b : List Char)
    (hane : a ≠ []) (hbne : b ≠ []) (had : a.all Char.isDigit = true)
    (hbd : b.all Char.isDigit = true) :
    parseAfterSign neg [a, b]
      = some ((if neg then (-1 : ℚ) else 1) *
        ((parseVal a : ℚ) + (parseVal b : ℚ) / (10 : ℚ) ^ b.length)) := by
  show (if a ≠ [] ∧ b ≠ [] ∧ a.all Char.isDigit = true ∧ b.all Char.isDigit = true then
      some ((if neg then (-1 : ℚ) else 1) *
        ((parseVal a : ℚ) + (parseVal b : ℚ) / (10 : ℚ) ^ b.length))
    else none) = _
  rw [if_pos (And.intro hane (And.intro hbne (And.intro had hbd)))]

theorem if_bool_true : (if (true : Bool) then (-1 : ℚ) else 1) = -1 := if_pos rfl

theorem if_bool_false : (if (false : Bool) then (-1 : ℚ) else 1) = 1 :=
  if_neg (by simp)

/-- Sign prefix times absolute value gives back the integer, in `ℚ`. -/
theorem sgn_mul_natAbs (m : Int) :
    (if m < 0 then (-1 : ℚ) else 1) * (m.natAbs : ℚ) = (m : ℚ) := by
  rcases lt_or_le m 0 with h | h
  · rw [if_pos h, Int.cast_natAbs, abs_of_neg h]
    push_cast
    ring
  · rw [if_neg (not_lt.mpr h), Int.cast_natAbs, abs_of_nonneg h]
    ring

/-- The scaled numerator over `10 ^ k` is the rational itself. -/
theorem scaled_num_div (v : ℚ) (k : Nat) (hk : v.den ∣ 10 ^ k) :
    ((v.num * (((10 ^ k) / v.den : Nat) : Int) : Int) : ℚ) / ((10 : ℚ) ^ k) = v := by
  have hc0 : v.den * (10 ^ k / v.den) = 10 ^ k := Nat.mul_div_cancel' hk
  generalize hgen : (10 ^ k / v.den : ℕ) = c0
  rw [hgen] at hc0
  have hdenne : (v.den : ℚ) ≠ 0 := by exact_mod_cast v.den_nz
  have hpow_ne : ((10 : ℚ) ^ k) ≠ 0 := by positivity
  have h2 : (v.den : ℚ) * (c0 : ℚ) = (10 : ℚ) ^ k := by
    have h1 : ((v.den * c0 : ℕ) : ℚ) = ((10 ^ k : ℕ) : ℚ) := by rw [hc0]
    push_cast at h1
    exact h1
  rw [div_eq_iff hpow_ne]
  conv_rhs => rw [← Rat.num_div_den v]
  rw [div_mul_eq_mul_div, eq_div_iff hdenne]
  push_cast
  rw [← h2]
  ring

/-- Decimal parsing inverts the signed decimal expansion of `m / 10 ^ k`. -/
theorem parseDec_core (m : Int) (k : Nat) :
    parseDecChars (signedDecChars m k) = some ((m : ℚ) / (10 : ℚ) ^ k) := by
  have habs := sgn_mul_natAbs m
  by_cases hk0 : k = 0
  · subst hk0
    have hdig := natStrChars_all_digits m.natAbs
    have hne := natStrChars_ne_nil m.natAbs
    have hsplit : splitChar '.' (natStrChars m.natAbs) = [natStrChars m.natAbs] :=
      splitChar_not_mem '.' _ (fun hmem => isDigit_ne_dot (hdig _ hmem) rfl)
    by_cases hneg : m < 0
    · have hform : signedDecChars m 0 = '-' :: natStrChars m.natAbs := by
        unfold signedDecChars
        rw [if_pos hneg]
        rfl
      rw [hform]
      show parseAfterSign (stripSign ('-' :: natStrChars m.natAbs)).1
        (splitChar '.' (stripSign ('-' :: natStrChars m.natAbs)).2) = _
      rw [stripSign_minus]
      show parseAfterSign true (splitChar '.' (natStrChars m.natAbs)) = _
      rw [hsplit, parseAfterSign_single true _ hne (List.all_eq_true.mpr hdig),
        if_bool_true, parseVal_natStrChars]
      rw [if_pos hneg] at habs
      rw [pow_zero, div_one, habs]
    · have hform : signedDecChars m 0 = natStrChars m.natAbs := by
        unfold signedDecChars
        rw [if_neg hneg]
        rfl
      rw [hform]
      show parseAfterSign (stripSign (natStrChars m.natAbs)).1
        (splitChar '.' (stripSign (natStrChars m.natAbs)).2) = _
      rw [stripSign_digits _ hdig]
      show parseAfterSign false (splitChar '.' (natStrChars m.natAbs)) = _
      rw [hsplit, parseAfterSign_single false _ hne (List.all_eq_true.mpr hdig),
        if_bool_false, parseVal_natStrChars]
      rw [if_neg hneg] at habs
      rw [pow_zero, div_one, habs]
  · have hkpos : 0 < k := Nat.pos_of_ne_zero hk0
    have hbody : decBody m.natAbs k
        = natStrChars (m.natAbs / 10 ^ k) ++ '.' :: padDigits k (m.natAbs % 10 ^ k) := by
      unfold decBody
      rw [if_neg hk0]
    have hxdig := natStrChars_all_digits (m.natAbs / 10 ^ k)
    have hxne := natStrChars_ne_nil (m.natAbs / 10 ^ k)
    have hydig := padDigits_all_digits k (m.natAbs % 10 ^ k)
    have hyne := padDigits_ne_nil k (m.natAbs % 10 ^ k)
    have hrk : m.natAbs % 10 ^ k < 10 ^ k :=
      Nat.mod_lt _ (Nat.pos_pow_of_pos k (by norm_num))
    have hylen : (padDigits k (m.natAbs % 10 ^ k)).length = k :=
      padDigits_length k _ hrk hkpos
    have hsplit : splitChar '.'
        (natStrChars (m.natAbs / 10 ^ k) ++ '.' :: padDigits k (m.natAbs % 10 ^ k))
        = [natStrChars (m.natAbs / 10 ^ k), padDigits k (m.natAbs % 10 ^ k)] := by
      rw [splitChar_append '.' _ _
        (fun hmem => isDigit_ne_dot (hxdig _ hmem) rfl)]
      rw [splitChar_not_mem '.' _
        (fun hmem => isDigit_ne_dot (hydig _ hmem) rfl)]
    have hvals : (parseVal (natStrChars (m.natAbs / 10 ^ k)) : ℚ)
        + (parseVal (padDigits k (m.natAbs % 10 ^ k)) : ℚ)
          / (10 : ℚ) ^ (padDigits k (m.natAbs % 10 ^ k)).length
        = (m.natAbs : ℚ) / (10 : ℚ) ^ k := by
      rw [hylen, parseVal_natStrChars, padDigits_parseVal]
      have hmod := Nat.div_add_mod m.natAbs (10 ^ k)
      have hpow_ne : ((10 : ℚ) ^ k) ≠ 0 := by positivity
      field_simp
      have hcast : ((10 ^ k * (m.natAbs / 10 ^ k) + m.natAbs % 10 ^ k : ℕ) : ℚ)
          = (m.natAbs : ℚ) := by rw [hmod]
      push_cast at hcast
      linarith [hcast]
    by_cases hneg : m < 0
    · have hform : signedDecChars m k
          = '-' :: (natStrChars (m.natAbs / 10 ^ k)
            ++ '.' :: padDigits k (m.natAbs % 10 ^ k)) := by
        unfold signedDecChars
        rw [if_pos hneg, hbody]
      rw [hform]
      show parseAfterSign (stripSign ('-' :: (natStrChars (m.natAbs / 10 ^ k)
          ++ '.' :: padDigits k (m.natAbs % 10 ^ k)))).1
        (splitChar '.' (stripSign ('-' :: (natStrChars (m.natAbs / 10 ^ k)
          ++ '.' :: padDigits k (m.natAbs % 10 ^ k)))).2) = _
      rw [stripSign_minus]
      show parseAfterSign true (splitChar '.' (natStrChars (m.natAbs / 10 ^ k)
        ++ '.' :: padDigits k (m.natAbs % 10 ^ k))) = _
      rw [hsplit, parseAfterSign_pair true _ _ hxne hyne
        (List.all_eq_true.mpr hxdig) (List.all_eq_true.mpr hydig),
        if_bool_true, hvals]
      rw [if_pos hneg] at habs
      have : (-1 : ℚ) * ((m.natAbs : ℚ) / (10 : ℚ) ^ k)
          = ((-1 : ℚ) * (m.natAbs : ℚ)) / (10 : ℚ) ^ k := by ring
      rw [this, habs]
    · have hform : signedDecChars m k
          = natStrChars (m.natAbs / 10 ^ k)
            ++ '.' :: padDigits k (m.natAbs % 10 ^ k) := by
        unfold signedDecChars
        rw [if_neg hneg, hbody]
      rw [hform]
      have hsign : stripSign
          (natStrChars (m.natAbs / 10 ^ k) ++ '.' :: padDigits k (m.natAbs % 10 ^ k))
          = (false, natStrChars (m.natAbs / 10 ^ k)
            ++ '.' :: padDigits k (m.natAbs % 10 ^ k)) := by
        cases hx' : natStrChars (m.natAbs / 10 ^ k) with
        | nil => exact absurd hx' hxne
        | cons c cs =>
          have hcd : c.isDigit = true := hxdig c (hx' ▸ List.mem_cons_self c cs)
          show stripSign (c :: (cs ++ '.' :: padDigits k (m.natAbs % 10 ^ k)))
              = (false, c :: (cs ++ '.' :: padDigits k (m.natAbs % 10 ^ k)))
          exact stripSign_head_digit c _ hcd
      show parseAfterSign (stripSign (natStrChars (m.natAbs / 10 ^ k)
          ++ '.' :: padDigits k (m.natAbs % 10 ^ k))).1
        (splitChar '.' (stripSign (natStrChars (m.natAbs / 10 ^ k)
          ++ '.' :: padDigits k (m.natAbs % 10 ^ k))).2) = _
      rw [hsign]
      show parseAfterSign false (splitChar '.' (natStrChars (m.natAbs / 10 ^ k)
        ++ '.' :: padDigits k (m.natAbs % 10 ^ k))) = _
      rw [hsplit, parseAfterSign_pair false _ _ hxne hyne
        (List.all_eq_true.mpr hxdig) (List.all_eq_true.mpr hydig),
        if_bool_false, hvals]
      rw [if_neg hneg] at habs
      have : (1 : ℚ) * ((m.natAbs : ℚ) / (10 : ℚ) ^ k)
          = ((1 : ℚ) * (m.natAbs : ℚ)) / (10 : ℚ) ^ k := by ring
      rw [this, habs]

/-- Decimal parsing inverts decimal printing on rationals whose denominator
divides `10 ^ k`. -/
theorem parseDec_printDec (v : ℚ) (k : Nat) (hk : v.den ∣ 10 ^ k) :
    parseDecChars (printDecChars v k) = some v := by
  unfold printDecChars
  rw [parseDec_core, scaled_num_div v k hk]

theorem findExp_spec (den k : Nat) (h : findExp den = some k) : den ∣ 10 ^ k := by
  unfold findExp at h
  have h2 := @List.find?_some _ (fun j => decide (den ∣ 10 ^ j)) k _ h
  simp only [decide_eq_true_eq] at h2
  exact h2

theorem decBody_chars (a k : Nat) :
    ∀ c ∈ decBody a k, c.isDigit = true ∨ c = '.' := by
  intro c hc
  unfold decBody at hc
  by_cases h : k = 0
  · rw [if_pos h] at hc
    exact Or.inl (natStrChars_all_digits a c hc)
  · rw [if_neg h] at hc
    rcases List.mem_append.mp hc with h' | h'
    · exact Or.inl (natStrChars_all_digits _ c h')
    · rcases List.mem_cons.mp h' with rfl | h''
      · exact Or.inr rfl
      · exact Or.inl (padDigits_all_digits _ _ c h'')

theorem signedDecChars_chars (m : Int) (k : Nat) :
    ∀ c ∈ signedDecChars m k, c.isDigit = true ∨ c = '.' ∨ c = '-' := by
  intro c hc
  unfold signedDecChars at hc
  by_cases h : m < 0
  · rw [if_pos h] at hc
    rcases List.mem_cons.mp hc with rfl | h'
    · exact Or.inr (Or.inr rfl)
    · rcases decBody_chars _ _ c h' with h'' | h''
      · exact Or.inl h''
      · exact Or.inr (Or.inl h'')
  · rw [if_neg h] at hc
    rcases decBody_chars _ _ c hc with h'' | h''
    · exact Or.inl h''
    · exact Or.inr (Or.inl h'')

theorem decBody_ne_nil (a k : Nat) : decBody a k ≠ [] := by
  unfold decBody
  by_cases h : k = 0
  · rw [if_pos h]
    exact natStrChars_ne_nil a
  · rw [if_neg h]
    intro he
    rcases List.append_eq_nil.mp he with ⟨_, h2⟩
    exact List.cons_ne_nil _ _ h2

theorem signedDecChars_ne_nil (m : Int) (k : Nat) : signedDecChars m k ≠ [] := by
  unfold signedDecChars
  by_cases h : m < 0
  · rw [if_pos h]
    exact List.cons_ne_nil _ _
  · rw [if_neg h]
    exact decBody_ne_nil _ _

/-- A float-representable cell serializes to a comma- and newline-free field
that parses back to itself. -/
theorem goodCell_enc (c : Cell) (h : goodCell c) :
    ',' ∉ encField c ∧ '\n' ∉ encField c ∧ decField (encField c) = c := by
  cases c with
  | s v => exact h.elim
  | nan => exact ⟨by decide, by decide, rfl⟩
  | q v =>
    obtain ⟨k, hk⟩ := Option.isSome_iff_exists.mp h
    have hdvd : v.den ∣ 10 ^ k := findExp_spec _ _ hk
    have henc : encField (Cell.q v) = printDecChars v k := by
      show printDecQ v = _
      unfold printDecQ
      rw [hk]
    rw [henc]
    refine ⟨?_, ?_, ?_⟩
    · intro hmem
      rcases signedDecChars_chars _ _ ',' hmem with h' | h' | h' <;> simp at h'
    · intro hmem
      rcases signedDecChars_chars _ _ '\n' hmem with h' | h' | h' <;> simp at h'
    · have hne : printDecChars v k ≠ [] := signedDecChars_ne_nil _ _
      unfold decField
      rw [if_neg hne, parseDec_printDec v k hdvd]

/-- A health-status field serializes to a comma- and newline-free field that
parses back to itself. -/
theorem statusCell_enc (c : Cell)
    (h : c = Cell.s "Moderate" ∨ c = Cell.s "Unhealthy") :
    ',' ∉ encField c ∧ '\n' ∉ encField c ∧ decField (encField c) = c := by
  rcases h with rfl | rfl
  · exact ⟨by decide, by decide, by decide⟩
  · exact ⟨by decide, by decide, by decide⟩

theorem mem_joinSep (sep : Char) :
    ∀ (ps : List (List Char)) (x : Char), x ∈ joinSep sep ps →
      x = sep ∨ ∃ p ∈ ps, x ∈ p
  | [], x, h => by simp [joinSep] at h
  | [p], x, h => Or.inr ⟨p, by simp, h⟩
  | p :: q :: ps, x, h => by
    rw [show joinSep sep (p :: q :: ps) = p ++ sep :: joinSep sep (q :: ps) from rfl] at h
    rcases List.mem_append.mp h with h' | h'
    · exact Or.inr ⟨p, by simp, h'⟩
    · rcases List.mem_cons.mp h' with rfl | h''
      · exact Or.inl rfl
      · rcases mem_joinSep sep (q :: ps) x h'' with h3 | ⟨p', hp', hx⟩
        · exact Or.inl h3
        · exact Or.inr ⟨p', List.mem_cons_of_mem p hp', hx⟩

theorem csvLine_ne_nil (t : Cell × Cell × Cell) : csvLine t ≠ [] := by
  show encField t.1 ++ ',' :: joinSep ',' [encField t.2.1, encField t.2.2] ≠ []
  intro he
  rcases List.append_eq_nil.mp he with ⟨_, h2⟩
  exact List.cons_ne_nil _ _ h2

theorem reparse_line (t : Cell × Cell × Cell)
    (h1 : decField (encField t.1) = t.1)
    (h2 : decField (encField t.2.1) = t.2.1)
    (h3 : decField (encField t.2.2) = t.2.2)
    (hc1 : ',' ∉ encField t.1) (hc2 : ',' ∉ encField t.2.1)
    (hc3 : ',' ∉ encField t.2.2) :
    (match splitChar ',' (csvLine t) with
      | [a, b, c] => some (decField a, decField b, decField c)
      | _ => none) = some t := by
  have hs : splitChar ',' (csvLine t)
      = [encField t.1, encField t.2.1, encField t.2.2] := by
    apply splitChar_joinSep
    · simp
    · intro p hp
      rcases List.mem_cons.mp hp with rfl | hp'
      · exact hc1
      rcases List.mem_cons.mp hp' with rfl | hp''
      · exact hc2
      rcases List.mem_cons.mp hp'' with rfl | hp3
      · exact hc3
      · simp at hp3
  rw [hs]
  show some (decField (encField t.1), decField (encField t.2.1),
    decField (encField t.2.2)) = some t
  rw [h1, h2, h3]

/-- C9: exporting the at-risk listing to CSV and re-parsing that CSV yields
the same sequence of (health_status, latitude, longitude) tuples, order
preserved — for any listing whose latitude and longitude cells are missing
values or numbers with a finite decimal expansion (which every float has). -/
theorem c9_roundtrip (df : DF) (d : String)
    (h : ∀ t ∈ risky_listing df d, goodCell t.2.1 ∧ goodCell t.2.2) :
    reparse_at_risk (to_csv_at_risk df d) = risky_listing df d := by
  have hfield : ∀ t ∈ risky_listing df d,
      (',' ∉ encField t.1 ∧ '\n' ∉ encField t.1 ∧ decField (encField t.1) = t.1) ∧
      (',' ∉ encField t.2.1 ∧ '\n' ∉ encField t.2.1 ∧
        decField (encField t.2.1) = t.2.1) ∧
      (',' ∉ encField t.2.2 ∧ '\n' ∉ encField t.2.2 ∧
        decField (encField t.2.2) = t.2.2) := by
    intro t ht
    exact ⟨statusCell_enc t.1 (mem_risky_listing_status df d t ht),
      goodCell_enc t.2.1 (h t ht).1, goodCell_enc t.2.2 (h t ht).2⟩
  have hline_nonl : ∀ t ∈ risky_listing df d, '\n' ∉ csvLine t := by
    intro t ht hmem
    rcases mem_joinSep ',' _ '\n' hmem with he | ⟨q, hq, hx⟩
    · exact absurd he (by decide)
    · obtain ⟨hf1, hf2, hf3⟩ := hfield t ht
      rcases List.mem_cons.mp hq with rfl | hq'
      · exact hf1.2.1 hx
      rcases List.mem_cons.mp hq' with rfl | hq''
      · exact hf2.2.1 hx
      rcases List.mem_cons.mp hq'' with rfl | hq3
      · exact hf3.2.1 hx
      · simp at hq3
  have hsplit : splitChar '\n' (joinSep '\n'
      ((headerChars :: (risky_listing df d).map csvLine) ++ [[]]))
      = (headerChars :: (risky_listing df d).map csvLine) ++ [[]] := by
    apply splitChar_joinSep
    · simp
    · intro p hp
      rcases List.mem_append.mp hp with hp' | hp'
      · rcases List.mem_cons.mp hp' with rfl | hp''
        · decide
        · rcases List.mem_map.mp hp'' with ⟨t, ht, rfl⟩
          exact hline_nonl t ht
      · simp at hp'
        subst hp'
        simp
  have hmk : (String.mk (joinSep '\n'
      ((headerChars :: (risky_listing df d).map csvLine) ++ [[]]))).data
      = joinSep '\n' ((headerChars :: (risky_listing df d).map csvLine) ++ [[]]) := rfl
  show (((splitChar '\n' (String.mk (joinSep '\n'
      ((headerChars :: (risky_listing df d).map csvLine) ++ [[]]))).data).filter
        (fun l => decide (l ≠ []))).tail).filterMap _ = _
  rw [hmk, hsplit]
  have hfilter : (((headerChars :: (risky_listing df d).map csvLine) ++ [[]]).filter
      (fun l => decide (l ≠ []))) = headerChars :: (risky_listing df d).map csvLine := by
    rw [List.filter_append, List.filter_cons_of_pos (by decide)]
    have h1 : ((risky_listing df d).map csvLine).filter (fun l => decide (l ≠ []))
        = (risky_listing df d).map csvLine := by
      apply List.filter_eq_self.mpr
      intro a ha
      rcases List.mem_map.mp ha with ⟨t, _, rfl⟩
      exact decide_eq_true (csvLine_ne_nil t)
    rw [h1]
    simp
  rw [hfilter]
  show ((risky_listing df d).map csvLine).filterMap _ = _
  rw [List.filterMap_map]
  have hlines : ∀ t ∈ risky_listing df d,
      ((fun line => match splitChar ',' line with
        | [a, b, c] => some (decField a, decField b, decField c)
        | _ => none) ∘ csvLine) t = some t := by
    intro t ht
    obtain ⟨hf1, hf2, hf3⟩ := hfield t ht
    exact reparse_line t hf1.2.2 hf2.2.2 hf3.2.2 hf1.1 hf2.1 hf3.1
  rw [List.filterMap_congr hlines]
  exact List.filterMap_some _

/-- Input for the C9 witness: at-risk palm records with float-valued
coordinates (including a negative one and a missing one). -/
def rdC9W : RootDir :=
  ⟨[("d1", some ⟨some ⟨["class", "ndvi", "latitude", "longitude"],
    [[Cell.s "palm", Cell.q ⟨1, 2, by decide, by decide⟩, Cell.q 30,
      Cell.q ⟨-123, 8, by decide, by decide⟩],
     [Cell.s "palm", Cell.q ⟨1, 100, by decide, by decide⟩, Cell.nan,
      Cell.q 7]]⟩, []⟩)]⟩

theorem c9_roundtrip_witness :
    reparse_at_risk (to_csv_at_risk (addHealth (rawFull rdC9W)) "d1")
      = risky_listing (addHealth (rawFull rdC9W)) "d1" :=
  c9_roundtrip (addHealth (rawFull rdC9W)) "d1" (by decide)
